import Mathlib

/-! **Verification of the Ganesha access-control core**

This file gives a shallow embedding, in Lean 4, of the security-relevant parts
of the Ganesha repository:

* `src/ganesha/daemon/access_control.py` — the `AccessController` with its
  hardcoded `ALWAYS_DENIED` rules, presets, user whitelist/blacklist, the
  lexical risk heuristic and the self-invocation guard;
* `src/ganesha/daemon/privileged.py` — the daemon's `_process_request`;
* `src/ganesha/daemon/client.py` — the client's `_execute_direct` fallback;
* `src/ganesha/core/engine.py` — the session model, the execute loop and
  rollback generation.

Python regular expressions are embedded by a small executable backtracking
matcher (`Re.mtch`) over `List Char`, covering exactly the constructs used by
the repository's patterns: literals, character classes, `\s`, `\S`, `\d`,
`.`, alternation, `*`, `+`, `?`, the anchors `^` and `$`, the word boundary
`\b`, negative lookahead `(?!...)`, and the `re.IGNORECASE` flag.  Matching
is fuel-based so that every definition is executable by the kernel; fuel
irrelevance above an explicit bound is proved (`Re.mtch_fuel_irrel`).
-/

namespace Re

/-- One alternative inside a character class (`[sh]`, `[a-z]`, `[0-9]`),
or the predefined classes `\s`, `\S`, `\d` which we represent as
single-item classes. -/
inductive CItem where
  | ch (c : Char)
  | range (lo hi : Char)
  | space
  | nonspace
  | digit
deriving DecidableEq, Repr

/-- Abstract syntax of the regular-expression subset used by the repository's
patterns.  `bol` is `^`, `eol` is `$`, `wordB` is `\b`, `nla` is a negative
lookahead `(?!...)`. -/
inductive Regex where
  | eps
  | dot
  | lit (c : Char)
  | cls (items : List CItem)
  | seq (a b : Regex)
  | alt (a b : Regex)
  | star (r : Regex)
  | bol
  | eol
  | wordB
  | nla (r : Regex)
deriving DecidableEq, Repr

/-- Python's `\s`: space, tab, newline, carriage return, vertical tab,
form feed (the ASCII fragment, which is all the repository's commands use). -/
def isSpaceChar (c : Char) : Bool :=
  c = ' ' || c = '\t' || c = '\n' || c = '\r' || c = '\x0b' || c = '\x0c'

/-- Python's `\w` character test, used by the `\b` word-boundary assertion. -/
def isWordChar (c : Char) : Bool :=
  c.isAlphanum || c = '_'

/-- Base (case-sensitive) test of one class item against a character. -/
def citemMatches : CItem → Char → Bool
  | .ch c, x => c = x
  | .range lo hi, x => lo ≤ x && x ≤ hi
  | .space, x => isSpaceChar x
  | .nonspace, x => !isSpaceChar x
  | .digit, x => x.isDigit

/-- Class match with optional `re.IGNORECASE` folding: under the flag a
character also matches if its lower- or upper-cased form does. -/
def clsMatches (ic : Bool) (items : List CItem) (x : Char) : Bool :=
  items.any (fun it => citemMatches it x) ||
    (ic && (items.any (fun it => citemMatches it x.toLower) ||
            items.any (fun it => citemMatches it x.toUpper)))

/-- Literal match with optional `re.IGNORECASE` folding. -/
def litMatches (ic : Bool) (c x : Char) : Bool :=
  c = x || (ic && (c = x.toLower || c = x.toUpper))

/-- The `\b` assertion: word-ness of the previous character (`none` at the
start of the haystack) differs from word-ness of the next character. -/
def boundaryOk (p : Option Char) (s : List Char) : Bool :=
  let pw := match p with | some c => isWordChar c | none => false
  let nw := match s with | x :: _ => isWordChar x | [] => false
  pw != nw

/-- A matcher state: the previously consumed character (`none` when at the
start of the haystack) and the remaining input. -/
abbrev MState := Option Char × List Char

/-- Backtracking matcher.  `mtch ic f r p s` returns every state reachable by
matching `r` once starting from previous-character context `p` and remaining
input `s`.  The `*` operator only repeats its body on iterations that consume
input, which is how Python's `re` avoids looping on an empty match; `f` is
fuel, decremented on every recursive call, so the definition is structurally
recursive and kernel-executable.  `mtch_fuel_irrel` below shows the result is
independent of the fuel once it reaches `(s.length + 1) * (rsize r + 1)`. -/
def mtch (ic : Bool) : Nat → Regex → Option Char → List Char → List MState
  | 0, _, _, _ => []
  | _ + 1, .eps, p, s => [(p, s)]
  | _ + 1, .lit _, _, [] => []
  | _ + 1, .lit c, _, x :: xs => if litMatches ic c x then [(some x, xs)] else []
  | _ + 1, .cls _, _, [] => []
  | _ + 1, .cls items, _, x :: xs => if clsMatches ic items x then [(some x, xs)] else []
  | _ + 1, .dot, _, [] => []
  | _ + 1, .dot, _, x :: xs => if x != '\n' then [(some x, xs)] else []
  | f + 1, .seq a b, p, s => (mtch ic f a p s).flatMap (fun st => mtch ic f b st.1 st.2)
  | f + 1, .alt a b, p, s => mtch ic f a p s ++ mtch ic f b p s
  | f + 1, .star r, p, s =>
      (p, s) :: ((mtch ic f r p s).filter (fun st => st.2.length < s.length)).flatMap
        (fun st => mtch ic f (.star r) st.1 st.2)
  | _ + 1, .bol, p, s => if p.isNone then [(p, s)] else []
  | _ + 1, .eol, p, s => if s.isEmpty || s = ['\n'] then [(p, s)] else []
  | _ + 1, .wordB, p, s => if boundaryOk p s then [(p, s)] else []
  | f + 1, .nla r, p, s => if (mtch ic f r p s).isEmpty then [(p, s)] else []

/-- Structural size of a regex, used for the fuel bound. -/
def rsize : Regex → Nat
  | .eps | .dot | .lit _ | .cls _ | .bol | .eol | .wordB => 1
  | .seq a b => rsize a + rsize b + 1
  | .alt a b => rsize a + rsize b + 1
  | .star r => rsize r + 1
  | .nla r => rsize r + 1

/-- Fuel that is always sufficient for `mtch` on input `s`. -/
def fbound (r : Regex) (s : List Char) : Nat :=
  (s.length + 1) * (rsize r + 1)

/-- All suffix positions of the haystack, each with its previous-character
context.  `re.search` tries these in order. -/
def suffixStates (p : Option Char) : List Char → List MState
  | [] => [(p, [])]
  | x :: xs => (p, x :: xs) :: suffixStates (some x) xs

/-- Does `r` match starting exactly at the state `st`? -/
def hasMatchAt (ic : Bool) (r : Regex) (st : MState) : Bool :=
  !(mtch ic (fbound r st.2) r st.1 st.2).isEmpty

/-- Embedding of `compiled_pattern.search(s)`: a match may start anywhere. -/
def rsearch (ic : Bool) (r : Regex) (s : List Char) : Bool :=
  (suffixStates none s).any (hasMatchAt ic r)

/-- Embedding of `compiled_pattern.match(s)`: the match must start at the
beginning of the string. -/
def rmatch (ic : Bool) (r : Regex) (s : List Char) : Bool :=
  !(mtch ic (fbound r s) r none s).isEmpty

/-- Concatenation of a list of regexes (right-nested, ending in `eps`). -/
def rcat (l : List Regex) : Regex :=
  l.foldr Regex.seq Regex.eps

/-- A literal string as a regex. -/
def rstr (s : String) : Regex :=
  rcat (s.data.map Regex.lit)

/-- `r+` desugared as `r r*`, as in Python. -/
def rplus (r : Regex) : Regex :=
  .seq r (.star r)

/-- `r?` desugared as `r | ε`. -/
def ropt (r : Regex) : Regex :=
  .alt r .eps

/-- Alternation `(a|b|c|...)` of a non-empty list (an empty list yields `ε`,
but the repository never produces one). -/
def ralts : List Regex → Regex
  | [] => .eps
  | [r] => r
  | r :: rest => .alt r (ralts rest)

/-- `\s` -/
def sp : Regex := .cls [CItem.space]

/-- `\s+` -/
def spPlus : Regex := rplus sp

/-- `\s*` -/
def spStar : Regex := .star sp

/-- `.*` -/
def anyStar : Regex := .star .dot

/-- `\S+` -/
def nonspPlus : Regex := rplus (.cls [CItem.nonspace])

/-- `\d+` -/
def digPlus : Regex := rplus (.cls [CItem.digit])

end Re

namespace Re

/-- Python's `str.strip()` on the left: drop leading whitespace. -/
def stripLeft (l : List Char) : List Char :=
  l.dropWhile isSpaceChar

/-- Python's `str.strip()` on the right: drop trailing whitespace. -/
def stripRight (l : List Char) : List Char :=
  (l.reverse.dropWhile isSpaceChar).reverse

/-- Python's `str.strip()` (ASCII whitespace, which covers the repository's
commands). -/
def pyStrip (l : List Char) : List Char :=
  stripRight (stripLeft l)

end Re

/-! **Access control (`src/ganesha/daemon/access_control.py`)**
-/

namespace Ganesha

open Re

/-- `AccessLevel` presets (source: `class AccessLevel(Enum)`). -/
inductive AccessLevel where
  | RESTRICTED
  | STANDARD
  | ELEVATED
  | FULL_ACCESS
  | WHITELIST
  | BLACKLIST
deriving DecidableEq, Repr

/-- The `.value` string of an access level, used in decision reason strings. -/
def AccessLevel.value : AccessLevel → String
  | .RESTRICTED => "restricted"
  | .STANDARD => "standard"
  | .ELEVATED => "elevated"
  | .FULL_ACCESS => "full_access"
  | .WHITELIST => "whitelist"
  | .BLACKLIST => "blacklist"

/-- `AccessPolicy` (source dataclass).  The user whitelist/blacklist entries
are pattern strings in the source; they are embedded here directly as regex
syntax trees (compilation of a pattern string is represented by its tree). -/
structure AccessPolicy where
  level : AccessLevel := .STANDARD
  whitelist : List Regex := []
  blacklist : List Regex := []
  allowed_paths : List String := []
  denied_paths : List String := []
  require_approval_for_high_risk : Bool := true
  audit_all_commands : Bool := true
  max_execution_time : Int := 300

/-- Abbreviation used by the `(-rf?|--recursive)` group of the
catastrophic-deletion rules. -/
def rmFlags : Regex :=
  ralts [rcat [rstr "-r", ropt (.lit 'f')], rstr "--recursive"]

/-- `(rm|mv|cp|cat\s*>|echo\s*>)` — the tamper-rule prefix group. -/
def tamperPre : Regex :=
  ralts [rstr "rm", rstr "mv", rstr "cp",
    rcat [rstr "cat", spStar, rstr ">"],
    rcat [rstr "echo", spStar, rstr ">"]]

/-- `ALWAYS_DENIED` — the hardcoded security-critical deny patterns, in
source order.  Each entry is the syntax tree of the Python regex given in
the comment. -/
def ALWAYS_DENIED : List Regex := [
  -- ganesha\s+.*--auto
  rcat [rstr "ganesha", spPlus, anyStar, rstr "--auto"],
  -- ganesha\s+.*-A\b
  rcat [rstr "ganesha", spPlus, anyStar, rstr "-A", .wordB],
  -- ganesha\s+.*--yes
  rcat [rstr "ganesha", spPlus, anyStar, rstr "--yes"],
  -- ganesha\s+.*-y\b
  rcat [rstr "ganesha", spPlus, anyStar, rstr "-y", .wordB],
  -- ganesha-daemon\s+.*--level\s+full
  rcat [rstr "ganesha-daemon", spPlus, anyStar, rstr "--level", spPlus, rstr "full"],
  -- ganesha-config\s+.*set-level\s+full
  rcat [rstr "ganesha-config", spPlus, anyStar, rstr "set-level", spPlus, rstr "full"],
  -- ganesha-config\s+.*reset
  rcat [rstr "ganesha-config", spPlus, anyStar, rstr "reset"],
  -- python.*ganesha.*--auto
  rcat [rstr "python", anyStar, rstr "ganesha", anyStar, rstr "--auto"],
  -- python.*ganesha.*-A\b
  rcat [rstr "python", anyStar, rstr "ganesha", anyStar, rstr "-A", .wordB],
  -- (rm|mv|cp|cat\s*>|echo\s*>).*\.ganesha/
  rcat [tamperPre, anyStar, rstr ".ganesha/"],
  -- (rm|mv|cp|cat\s*>|echo\s*>).*/etc/ganesha/
  rcat [tamperPre, anyStar, rstr "/etc/ganesha/"],
  -- (rm|mv|cp|cat\s*>|echo\s*>).*/var/log/ganesha/
  rcat [tamperPre, anyStar, rstr "/var/log/ganesha/"],
  -- (rm|truncate|cat\s*/dev/null\s*>).*(/var/log/syslog|/var/log/messages)
  rcat [ralts [rstr "rm", rstr "truncate",
          rcat [rstr "cat", spStar, rstr "/dev/null", spStar, rstr ">"]],
        anyStar, ralts [rstr "/var/log/syslog", rstr "/var/log/messages"]],
  -- journalctl\s+--vacuum
  rcat [rstr "journalctl", spPlus, rstr "--vacuum"],
  -- (rm|truncate).*\.xsession-errors
  rcat [ralts [rstr "rm", rstr "truncate"], anyStar, rstr ".xsession-errors"],
  -- rm\s+(-rf?|--recursive)\s+/\s*$
  rcat [rstr "rm", spPlus, rmFlags, spPlus, rstr "/", spStar, .eol],
  -- rm\s+(-rf?|--recursive)\s+/\*
  rcat [rstr "rm", spPlus, rmFlags, spPlus, rstr "/*"],
  -- rm\s+(-rf?|--recursive)\s+/home\s*$
  rcat [rstr "rm", spPlus, rmFlags, spPlus, rstr "/home", spStar, .eol],
  -- rm\s+(-rf?|--recursive)\s+/etc\s*$
  rcat [rstr "rm", spPlus, rmFlags, spPlus, rstr "/etc", spStar, .eol],
  -- rm\s+(-rf?|--recursive)\s+/var\s*$
  rcat [rstr "rm", spPlus, rmFlags, spPlus, rstr "/var", spStar, .eol],
  -- rm\s+(-rf?|--recursive)\s+/usr\s*$
  rcat [rstr "rm", spPlus, rmFlags, spPlus, rstr "/usr", spStar, .eol],
  -- :\(\)\s*\{\s*:\|:&\s*\}\s*;:   (classic fork bomb)
  rcat [rstr ":()", spStar, .lit '\x7b', spStar, rstr ":|:&", spStar,
        .lit '\x7d', spStar, rstr ";:"],
  -- \.\/\s*\S+\s*\|\s*\.\/\s*\S+\s*&   (recursive fork patterns)
  rcat [rstr "./", spStar, nonspPlus, spStar, rstr "|", spStar, rstr "./",
        spStar, nonspPlus, spStar, rstr "&"],
  -- dd\s+.*of=/dev/[sh]d[a-z]\s*$
  rcat [rstr "dd", spPlus, anyStar, rstr "of=/dev/", .cls [.ch 's', .ch 'h'],
        .lit 'd', .cls [.range 'a' 'z'], spStar, .eol],
  -- mkfs\s+.*\s+/dev/[sh]d[a-z][0-9]*
  rcat [rstr "mkfs", spPlus, anyStar, spPlus, rstr "/dev/", .cls [.ch 's', .ch 'h'],
        .lit 'd', .cls [.range 'a' 'z'], .star (.cls [.range '0' '9'])],
  -- wipefs
  rstr "wipefs",
  -- dd\s+.*of=/dev/nvme
  rcat [rstr "dd", spPlus, anyStar, rstr "of=/dev/nvme"],
  -- flashrom
  rstr "flashrom",
  -- (curl|wget|nc)\s+.*(/etc/shadow|/etc/passwd|\.ssh/)
  rcat [ralts [rstr "curl", rstr "wget", rstr "nc"], spPlus, anyStar,
        ralts [rstr "/etc/shadow", rstr "/etc/passwd", rstr ".ssh/"]],
  -- cat\s+.*\.ssh/(id_rsa|id_ed25519)\s*\|
  rcat [rstr "cat", spPlus, anyStar, rstr ".ssh/",
        ralts [rstr "id_rsa", rstr "id_ed25519"], spStar, rstr "|"],
  -- insmod\s+.*\.ko
  rcat [rstr "insmod", spPlus, anyStar, rstr ".ko"],
  -- rmmod
  rstr "rmmod",
  -- echo\s+.*>\s*/proc/sys
  rcat [rstr "echo", spPlus, anyStar, rstr ">", spStar, rstr "/proc/sys"],
  -- setenforce\s+0
  rcat [rstr "setenforce", spPlus, rstr "0"],
  -- systemctl\s+(stop|disable)\s+.*firewall
  rcat [rstr "systemctl", spPlus, ralts [rstr "stop", rstr "disable"], spPlus,
        anyStar, rstr "firewall"],
  -- ufw\s+disable
  rcat [rstr "ufw", spPlus, rstr "disable"],
  -- iptables\s+-F
  rcat [rstr "iptables", spPlus, rstr "-F"]
]

/-- `MANIPULATION_INDICATORS` — prompt-injection phrases, in source order. -/
def MANIPULATION_INDICATORS : List Regex := [
  -- ignore\s+(previous|prior|above)\s+(instructions?|rules?|constraints?)
  rcat [rstr "ignore", spPlus, ralts [rstr "previous", rstr "prior", rstr "above"],
        spPlus, ralts [rcat [rstr "instruction", ropt (.lit 's')],
          rcat [rstr "rule", ropt (.lit 's')], rcat [rstr "constraint", ropt (.lit 's')]]],
  -- disregard\s+(safety|security|restrictions?)
  rcat [rstr "disregard", spPlus,
        ralts [rstr "safety", rstr "security", rcat [rstr "restriction", ropt (.lit 's')]]],
  -- pretend\s+(you\s+)?(are|can|have)
  rcat [rstr "pretend", spPlus, ropt (rcat [rstr "you", spPlus]),
        ralts [rstr "are", rstr "can", rstr "have"]],
  -- act\s+as\s+if\s+(there\s+)?(are\s+)?no\s+(rules?|restrictions?)
  rcat [rstr "act", spPlus, rstr "as", spPlus, rstr "if", spPlus,
        ropt (rcat [rstr "there", spPlus]), ropt (rcat [rstr "are", spPlus]),
        rstr "no", spPlus,
        ralts [rcat [rstr "rule", ropt (.lit 's')], rcat [rstr "restriction", ropt (.lit 's')]]],
  -- bypass\s+(the\s+)?(safety|security|consent)
  rcat [rstr "bypass", spPlus, ropt (rcat [rstr "the", spPlus]),
        ralts [rstr "safety", rstr "security", rstr "consent"]],
  -- override\s+(the\s+)?(safety|security|consent)
  rcat [rstr "override", spPlus, ropt (rcat [rstr "the", spPlus]),
        ralts [rstr "safety", rstr "security", rstr "consent"]],
  -- you\s+(must|should|have\s+to)\s+(always\s+)?approve
  rcat [rstr "you", spPlus,
        ralts [rstr "must", rstr "should", rcat [rstr "have", spPlus, rstr "to"]],
        spPlus, ropt (rcat [rstr "always", spPlus]), rstr "approve"],
  -- automatically\s+(approve|accept|allow|run)
  rcat [rstr "automatically", spPlus,
        ralts [rstr "approve", rstr "accept", rstr "allow", rstr "run"]],
  -- without\s+(asking|confirmation|consent|approval)
  rcat [rstr "without", spPlus,
        ralts [rstr "asking", rstr "confirmation", rstr "consent", rstr "approval"]],
  -- skip\s+(the\s+)?(confirmation|consent|approval|check)
  rcat [rstr "skip", spPlus, ropt (rcat [rstr "the", spPlus]),
        ralts [rstr "confirmation", rstr "consent", rstr "approval", rstr "check"]],
  -- trust\s+me
  rcat [rstr "trust", spPlus, rstr "me"],
  -- i('m|\s+am)\s+(the\s+)?(admin|root|owner|authorized)
  rcat [rstr "i", ralts [rstr "'m", rcat [spPlus, rstr "am"]], spPlus,
        ropt (rcat [rstr "the", spPlus]),
        ralts [rstr "admin", rstr "root", rstr "owner", rstr "authorized"]],
  -- emergency\s+(override|access|mode)
  rcat [rstr "emergency", spPlus, ralts [rstr "override", rstr "access", rstr "mode"]],
  -- maintenance\s+mode
  rcat [rstr "maintenance", spPlus, rstr "mode"],
  -- debug\s+mode.*all\s+access
  rcat [rstr "debug", spPlus, rstr "mode", anyStar, rstr "all", spPlus, rstr "access"]
]

/-- `PRESET_RESTRICTED["allowed_patterns"]` — read-only commands, in source
order.  Each entry is the syntax tree of the Python regex in the comment. -/
def PRESET_RESTRICTED : List Regex := [
  -- ^cat\s+
  rcat [.bol, rstr "cat", spPlus],
  -- ^less\s+
  rcat [.bol, rstr "less", spPlus],
  -- ^head\s+
  rcat [.bol, rstr "head", spPlus],
  -- ^tail\s+
  rcat [.bol, rstr "tail", spPlus],
  -- ^ls\s+
  rcat [.bol, rstr "ls", spPlus],
  -- ^ls$
  rcat [.bol, rstr "ls", .eol],
  -- ^find\s+.*-type
  rcat [.bol, rstr "find", spPlus, anyStar, rstr "-type"],
  -- ^file\s+
  rcat [.bol, rstr "file", spPlus],
  -- ^stat\s+
  rcat [.bol, rstr "stat", spPlus],
  -- ^wc\s+
  rcat [.bol, rstr "wc", spPlus],
  -- ^uname\s+
  rcat [.bol, rstr "uname", spPlus],
  -- ^hostname$
  rcat [.bol, rstr "hostname", .eol],
  -- ^uptime$
  rcat [.bol, rstr "uptime", .eol],
  -- ^whoami$
  rcat [.bol, rstr "whoami", .eol],
  -- ^id$
  rcat [.bol, rstr "id", .eol],
  -- ^groups$
  rcat [.bol, rstr "groups", .eol],
  -- ^df\s+
  rcat [.bol, rstr "df", spPlus],
  -- ^du\s+
  rcat [.bol, rstr "du", spPlus],
  -- ^free\s+
  rcat [.bol, rstr "free", spPlus],
  -- ^lscpu$
  rcat [.bol, rstr "lscpu", .eol],
  -- ^lsblk$
  rcat [.bol, rstr "lsblk", .eol],
  -- ^lspci$
  rcat [.bol, rstr "lspci", .eol],
  -- ^lsusb$
  rcat [.bol, rstr "lsusb", .eol],
  -- ^lsof\s+
  rcat [.bol, rstr "lsof", spPlus],
  -- ^ps\s+
  rcat [.bol, rstr "ps", spPlus],
  -- ^top\s+-b\s+-n\s*1
  rcat [.bol, rstr "top", spPlus, rstr "-b", spPlus, rstr "-n", spStar, rstr "1"],
  -- ^htop\s+--no-color.*-t
  rcat [.bol, rstr "htop", spPlus, rstr "--no-color", anyStar, rstr "-t"],
  -- ^ip\s+(addr|link|route)\s*(show)?
  rcat [.bol, rstr "ip", spPlus, ralts [rstr "addr", rstr "link", rstr "route"],
        spStar, ropt (rstr "show")],
  -- ^ifconfig$
  rcat [.bol, rstr "ifconfig", .eol],
  -- ^netstat\s+
  rcat [.bol, rstr "netstat", spPlus],
  -- ^ss\s+
  rcat [.bol, rstr "ss", spPlus],
  -- ^ping\s+-c\s+\d+\s+
  rcat [.bol, rstr "ping", spPlus, rstr "-c", spPlus, digPlus, spPlus],
  -- ^dig\s+
  rcat [.bol, rstr "dig", spPlus],
  -- ^nslookup\s+
  rcat [.bol, rstr "nslookup", spPlus],
  -- ^host\s+
  rcat [.bol, rstr "host", spPlus],
  -- ^systemctl\s+status\s+
  rcat [.bol, rstr "systemctl", spPlus, rstr "status", spPlus],
  -- ^systemctl\s+is-active\s+
  rcat [.bol, rstr "systemctl", spPlus, rstr "is-active", spPlus],
  -- ^systemctl\s+is-enabled\s+
  rcat [.bol, rstr "systemctl", spPlus, rstr "is-enabled", spPlus],
  -- ^systemctl\s+list-units
  rcat [.bol, rstr "systemctl", spPlus, rstr "list-units"],
  -- ^service\s+\S+\s+status$
  rcat [.bol, rstr "service", spPlus, nonspPlus, spPlus, rstr "status", .eol],
  -- ^docker\s+(ps|images|info|version|inspect)
  rcat [.bol, rstr "docker", spPlus,
        ralts [rstr "ps", rstr "images", rstr "info", rstr "version", rstr "inspect"]],
  -- ^docker\s+logs\s+
  rcat [.bol, rstr "docker", spPlus, rstr "logs", spPlus],
  -- ^apt\s+(list|show|search)
  rcat [.bol, rstr "apt", spPlus, ralts [rstr "list", rstr "show", rstr "search"]],
  -- ^apt-cache\s+
  rcat [.bol, rstr "apt-cache", spPlus],
  -- ^dpkg\s+-[lLsS]
  rcat [.bol, rstr "dpkg", spPlus, rstr "-",
        .cls [.ch 'l', .ch 'L', .ch 's', .ch 'S']],
  -- ^pip\s+(list|show|freeze)
  rcat [.bol, rstr "pip", spPlus, ralts [rstr "list", rstr "show", rstr "freeze"]],
  -- ^pip3\s+(list|show|freeze)
  rcat [.bol, rstr "pip3", spPlus, ralts [rstr "list", rstr "show", rstr "freeze"]],
  -- ^npm\s+(list|ls|view)
  rcat [.bol, rstr "npm", spPlus, ralts [rstr "list", rstr "ls", rstr "view"]],
  -- ^git\s+(status|log|diff|branch|remote|show)
  rcat [.bol, rstr "git", spPlus,
        ralts [rstr "status", rstr "log", rstr "diff", rstr "branch", rstr "remote", rstr "show"]],
  -- ^env$
  rcat [.bol, rstr "env", .eol],
  -- ^printenv
  rcat [.bol, rstr "printenv"],
  -- ^echo\s+\$
  rcat [.bol, rstr "echo", spPlus, .lit '$']
]

/-- `PRESET_STANDARD["allowed_patterns"]` — safe modifications, in source
order. -/
def PRESET_STANDARD : List Regex := [
  -- ^mkdir\s+
  rcat [.bol, rstr "mkdir", spPlus],
  -- ^touch\s+
  rcat [.bol, rstr "touch", spPlus],
  -- ^cp\s+
  rcat [.bol, rstr "cp", spPlus],
  -- ^mv\s+
  rcat [.bol, rstr "mv", spPlus],
  -- ^rm\s+(?!-rf?\s+/)
  rcat [.bol, rstr "rm", spPlus,
        .nla (rcat [rstr "-r", ropt (.lit 'f'), spPlus, rstr "/"])],
  -- ^chmod\s+
  rcat [.bol, rstr "chmod", spPlus],
  -- ^chown\s+
  rcat [.bol, rstr "chown", spPlus],
  -- ^ln\s+
  rcat [.bol, rstr "ln", spPlus],
  -- ^grep\s+
  rcat [.bol, rstr "grep", spPlus],
  -- ^awk\s+
  rcat [.bol, rstr "awk", spPlus],
  -- ^sed\s+
  rcat [.bol, rstr "sed", spPlus],
  -- ^sort\s+
  rcat [.bol, rstr "sort", spPlus],
  -- ^uniq\s+
  rcat [.bol, rstr "uniq", spPlus],
  -- ^cut\s+
  rcat [.bol, rstr "cut", spPlus],
  -- ^tr\s+
  rcat [.bol, rstr "tr", spPlus],
  -- ^tar\s+
  rcat [.bol, rstr "tar", spPlus],
  -- ^gzip\s+
  rcat [.bol, rstr "gzip", spPlus],
  -- ^gunzip\s+
  rcat [.bol, rstr "gunzip", spPlus],
  -- ^zip\s+
  rcat [.bol, rstr "zip", spPlus],
  -- ^unzip\s+
  rcat [.bol, rstr "unzip", spPlus],
  -- ^curl\s+(?!.*(/etc/shadow|\.ssh/))
  rcat [.bol, rstr "curl", spPlus,
        .nla (rcat [anyStar, ralts [rstr "/etc/shadow", rstr ".ssh/"]])],
  -- ^wget\s+(?!.*(/etc/shadow|\.ssh/))
  rcat [.bol, rstr "wget", spPlus,
        .nla (rcat [anyStar, ralts [rstr "/etc/shadow", rstr ".ssh/"]])],
  -- ^kill\s+\d+
  rcat [.bol, rstr "kill", spPlus, digPlus],
  -- ^pkill\s+
  rcat [.bol, rstr "pkill", spPlus],
  -- ^killall\s+
  rcat [.bol, rstr "killall", spPlus],
  -- ^docker\s+(pull|run|stop|start|restart|rm|exec)
  rcat [.bol, rstr "docker", spPlus,
        ralts [rstr "pull", rstr "run", rstr "stop", rstr "start", rstr "restart",
               rstr "rm", rstr "exec"]],
  -- ^docker-compose\s+
  rcat [.bol, rstr "docker-compose", spPlus],
  -- ^git\s+(add|commit|push|pull|fetch|checkout|merge|rebase)
  rcat [.bol, rstr "git", spPlus,
        ralts [rstr "add", rstr "commit", rstr "push", rstr "pull", rstr "fetch",
               rstr "checkout", rstr "merge", rstr "rebase"]],
  -- ^nano\s+
  rcat [.bol, rstr "nano", spPlus],
  -- ^vim?\s+
  rcat [.bol, rstr "vi", ropt (.lit 'm'), spPlus],
  -- ^python3?\s+
  rcat [.bol, rstr "python", ropt (.lit '3'), spPlus],
  -- ^pip3?\s+install\s+--user
  rcat [.bol, rstr "pip", ropt (.lit '3'), spPlus, rstr "install", spPlus, rstr "--user"],
  -- ^node\s+
  rcat [.bol, rstr "node", spPlus],
  -- ^npm\s+(install|run|start|test)
  rcat [.bol, rstr "npm", spPlus,
        ralts [rstr "install", rstr "run", rstr "start", rstr "test"]],
  -- ^crontab\s+
  rcat [.bol, rstr "crontab", spPlus]
]

/-- `PRESET_ELEVATED["allowed_patterns"]` — package management and service
control, in source order. -/
def PRESET_ELEVATED : List Regex := [
  -- ^apt\s+(update|upgrade|install|remove|purge|autoremove)
  rcat [.bol, rstr "apt", spPlus,
        ralts [rstr "update", rstr "upgrade", rstr "install", rstr "remove",
               rstr "purge", rstr "autoremove"]],
  -- ^apt-get\s+
  rcat [.bol, rstr "apt-get", spPlus],
  -- ^dpkg\s+-i
  rcat [.bol, rstr "dpkg", spPlus, rstr "-i"],
  -- ^pip3?\s+install(?!\s+--user)
  rcat [.bol, rstr "pip", ropt (.lit '3'), spPlus, rstr "install",
        .nla (rcat [spPlus, rstr "--user"])],
  -- ^npm\s+install\s+-g
  rcat [.bol, rstr "npm", spPlus, rstr "install", spPlus, rstr "-g"],
  -- ^systemctl\s+(start|stop|restart|reload|enable|disable)\s+
  rcat [.bol, rstr "systemctl", spPlus,
        ralts [rstr "start", rstr "stop", rstr "restart", rstr "reload",
               rstr "enable", rstr "disable"], spPlus],
  -- ^service\s+\S+\s+(start|stop|restart|reload)$
  rcat [.bol, rstr "service", spPlus, nonspPlus, spPlus,
        ralts [rstr "start", rstr "stop", rstr "restart", rstr "reload"], .eol],
  -- ^docker\s+(build|network|volume)
  rcat [.bol, rstr "docker", spPlus, ralts [rstr "build", rstr "network", rstr "volume"]],
  -- ^hostnamectl\s+
  rcat [.bol, rstr "hostnamectl", spPlus],
  -- ^timedatectl\s+
  rcat [.bol, rstr "timedatectl", spPlus],
  -- ^localectl\s+
  rcat [.bol, rstr "localectl", spPlus],
  -- ^useradd\s+
  rcat [.bol, rstr "useradd", spPlus],
  -- ^usermod\s+
  rcat [.bol, rstr "usermod", spPlus],
  -- ^passwd\s+
  rcat [.bol, rstr "passwd", spPlus],
  -- ^groupadd\s+
  rcat [.bol, rstr "groupadd", spPlus],
  -- ^ufw\s+(allow|deny|status|enable)
  rcat [.bol, rstr "ufw", spPlus, ralts [rstr "allow", rstr "deny", rstr "status", rstr "enable"]],
  -- ^mount\s+
  rcat [.bol, rstr "mount", spPlus],
  -- ^umount\s+
  rcat [.bol, rstr "umount", spPlus],
  -- ^lsblk\s+
  rcat [.bol, rstr "lsblk", spPlus],
  -- ^blkid\s+
  rcat [.bol, rstr "blkid", spPlus]
]

/-- `PRESET_FULL_ACCESS["allowed_patterns"]` — `.*` (everything). -/
def PRESET_FULL_ACCESS : List Regex := [anyStar]

/-- The preset pattern list a level contributes, after the inheritance
`while` loop of `_compile_patterns` has been unrolled (each chain is finite:
full_access → elevated → standard → restricted; the level's own patterns come
first, then each ancestor's).  `WHITELIST` and `BLACKLIST` are not in the
`PRESETS` dict, so they contribute nothing. -/
def preset_allowed_for : AccessLevel → List Regex
  | .RESTRICTED => PRESET_RESTRICTED
  | .STANDARD => PRESET_STANDARD ++ PRESET_RESTRICTED
  | .ELEVATED => PRESET_ELEVATED ++ PRESET_STANDARD ++ PRESET_RESTRICTED
  | .FULL_ACCESS => PRESET_FULL_ACCESS ++ PRESET_ELEVATED ++ PRESET_STANDARD ++ PRESET_RESTRICTED
  | .WHITELIST => []
  | .BLACKLIST => []

/-- A compiled pattern: the `re.IGNORECASE` flag it was compiled with, and
its syntax tree. -/
abbrev CompiledPattern := Bool × Regex

/-- The compiled rule set built by `AccessController._compile_patterns`:
the hardcoded rules get `re.IGNORECASE`, the preset patterns and the user
whitelist/blacklist are compiled without flags. -/
structure CompiledPatterns where
  always_denied : List CompiledPattern
  manipulation_patterns : List CompiledPattern
  preset_allowed : List CompiledPattern
  whitelist : List CompiledPattern
  blacklist : List CompiledPattern

/-- `AccessController._compile_patterns`. -/
def compile_patterns (pol : AccessPolicy) : CompiledPatterns where
  always_denied := ALWAYS_DENIED.map (fun r => (true, r))
  manipulation_patterns := MANIPULATION_INDICATORS.map (fun r => (true, r))
  preset_allowed := (preset_allowed_for pol.level).map (fun r => (false, r))
  whitelist := pol.whitelist.map (fun r => (false, r))
  blacklist := pol.blacklist.map (fun r => (false, r))

/-- `pattern.search(s)` for a compiled pattern. -/
def cpSearch (pr : CompiledPattern) (s : List Char) : Bool :=
  rsearch pr.1 pr.2 s

/-- `pattern.match(s)` for a compiled pattern. -/
def cpMatch (pr : CompiledPattern) (s : List Char) : Bool :=
  rmatch pr.1 pr.2 s

/-- `AccessController.check_command`: strips the command, then checks
always-denied patterns, the blacklist, the whitelist (in `WHITELIST` mode),
`BLACKLIST` mode, and finally the preset patterns.  Returns
`(allowed, risk_level, reason)`. -/
def check_command (pol : AccessPolicy) (command : String) : Bool × String × String :=
  let cp := compile_patterns pol
  let c := pyStrip command.data
  if cp.always_denied.any (fun pr => cpSearch pr c) then
    (false, "critical", "Command matches security-critical deny pattern")
  else if cp.blacklist.any (fun pr => cpSearch pr c) then
    (false, "high", "Command matches blacklist pattern")
  else if pol.level = AccessLevel.WHITELIST then
    if cp.whitelist.any (fun pr => cpSearch pr c) then
      (true, "low", "Matched whitelist")
    else
      (false, "medium", "Command not in whitelist")
  else if pol.level = AccessLevel.BLACKLIST then
    (true, "medium", "Not in blacklist")
  else if cp.preset_allowed.any (fun pr => cpMatch pr c) then
    (true, "low", "Allowed by " ++ pol.level.value ++ " preset")
  else
    (false, "medium", "Command not allowed by " ++ pol.level.value ++ " preset")

/-- The four patterns of `AccessController.is_self_invocation`, in source
order (each is literally also an `ALWAYS_DENIED` entry). -/
def self_invoke_patterns : List Regex := [
  -- ganesha\s+.*--auto
  rcat [rstr "ganesha", spPlus, anyStar, rstr "--auto"],
  -- ganesha\s+.*-A\b
  rcat [rstr "ganesha", spPlus, anyStar, rstr "-A", .wordB],
  -- ganesha\s+.*--yes
  rcat [rstr "ganesha", spPlus, anyStar, rstr "--yes"],
  -- python.*ganesha.*--auto
  rcat [rstr "python", anyStar, rstr "ganesha", anyStar, rstr "--auto"]
]

/-- `AccessController.is_self_invocation`: `re.search(p, command,
re.IGNORECASE)` over the four bypass patterns (no stripping). -/
def is_self_invocation (command : String) : Bool :=
  self_invoke_patterns.any (fun r => rsearch true r command.data)

/-- `AccessController.check_manipulation` (boolean part): does the text match
any manipulation indicator? -/
def check_manipulation (text : String) : Bool :=
  (MANIPULATION_INDICATORS.map (fun r => (true, r))).any (fun pr => cpSearch pr text.data)

/-- Does the first list start the second one? -/
def startsWithL : List Char → List Char → Bool
  | [], _ => true
  | _ :: _, [] => false
  | x :: xs, y :: ys => x = y && startsWithL xs ys

/-- Contiguous-substring test (Python's `needle in hay`). -/
def containsSub (needle : List Char) : List Char → Bool
  | [] => startsWithL needle []
  | x :: xs => startsWithL needle (x :: xs) || containsSub needle xs

/-- Case-insensitive substring test, embedding Python's
`needle in command.lower()` where the needle is a lowercase literal. -/
def containsLower (needle : String) (command : String) : Bool :=
  containsSub needle.data (command.data.map Char.toLower)

/-- `AccessController.get_risk_level`: the lexical risk heuristic. -/
def get_risk_level (command : String) : String :=
  let critical := ["rm -rf", "dd if=", "mkfs", "> /dev/", "chmod 777 /"]
  let high := ["rm -r", "sudo", "su -", "chmod", "chown", "kill -9",
               "systemctl stop", "service stop", "iptables"]
  let medium := ["install", "remove", "delete", "modify", "update",
                 "mv /", "cp /", "docker run"]
  if critical.any (fun t => containsLower t command) then "critical"
  else if high.any (fun t => containsLower t command) then "high"
  else if medium.any (fun t => containsLower t command) then "medium"
  else "low"

/-- Numeric order of the risk-level strings, for "at least as risky"
comparisons. -/
def riskRank : String → Nat
  | "low" => 0
  | "medium" => 1
  | "high" => 2
  | "critical" => 3
  | _ => 0

end Ganesha

/-! **Access-control theorems**
-/

namespace Ganesha

open Re

/-- Sample policies used by concrete witnesses. -/
def polStd : AccessPolicy := { level := .STANDARD }

/-- A `WHITELIST`-mode policy whose only entry is the pattern `ls`. -/
def polWlLs : AccessPolicy := { level := .WHITELIST, whitelist := [rstr "ls"] }

/-- A `WHITELIST`-mode policy whose only entry is the pattern `sudo`. -/
def polWlSudo : AccessPolicy := { level := .WHITELIST, whitelist := [rstr "sudo"] }

/-- Shared helper: if any hardcoded `ALWAYS_DENIED` pattern matches the
stripped command, the first step of `check_command` fires, whatever the
policy. -/
theorem check_command_denies_always (pol : AccessPolicy) (c : String)
    (h : ALWAYS_DENIED.any (fun r => rsearch true r (pyStrip c.data)) = true) :
    check_command pol c =
      (false, "critical", "Command matches security-critical deny pattern") := by
  have hd : (compile_patterns pol).always_denied.any
      (fun pr => cpSearch pr (pyStrip c.data)) = true := by
    simpa [compile_patterns, cpSearch, List.any_map, Function.comp] using h
  unfold check_command
  simp [hd]

end Ganesha

namespace Ganesha

open Re

/-- C2: for every command and every policy (any level, whitelist or
blacklist), if some `ALWAYS_DENIED` pattern matches the (stripped) command,
`check_command` returns `allowed = false` with risk level `critical` and the
reason string naming the security-critical deny. -/
theorem always_denied_overrides_policy (pol : AccessPolicy) (c : String)
    (h : ALWAYS_DENIED.any (fun r => rsearch true r (pyStrip c.data)) = true) :
    check_command pol c =
      (false, "critical", "Command matches security-critical deny pattern") :=
  check_command_denies_always pol c h

/-- Witness for C2 at the concrete command `wipefs /dev/sda` under a
whitelist-mode policy that would otherwise allow nothing. -/
theorem always_denied_overrides_policy_witness :
    ALWAYS_DENIED.any
      (fun r => rsearch true r (pyStrip ("wipefs /dev/sda").data)) = true ∧
    check_command polWlLs "wipefs /dev/sda" =
      (false, "critical", "Command matches security-critical deny pattern") :=
  ⟨by decide, always_denied_overrides_policy polWlLs "wipefs /dev/sda" (by decide)⟩

end Ganesha

namespace Ganesha

open Re

/-- C6 counterexample: `check_command` decisions are not invariant under
case changes.  `ls` and its uppercase variant `LS` get different decisions
under a whitelist-mode policy whose single entry is `ls`, because user
whitelist patterns are compiled without `re.IGNORECASE`. -/
theorem case_insensitivity_counterexample :
    check_command polWlLs "ls" = (true, "low", "Matched whitelist") ∧
    check_command polWlLs "LS" = (false, "medium", "Command not in whitelist") ∧
    check_command polWlLs "ls" ≠ check_command polWlLs "LS" := by
  refine ⟨by decide, by decide, by decide⟩

/-- C6 amended: only the hardcoded rules (`ALWAYS_DENIED` and the
manipulation indicators) are compiled with `re.IGNORECASE`; the preset
allowed patterns and the user whitelist/blacklist are compiled
case-sensitively, and `check_command` decisions are not invariant under case
variants (although the always-denied step is: `wipefs` is blocked in either
case). -/
theorem case_insensitivity_amended (pol : AccessPolicy) :
    (compile_patterns pol).always_denied.all (fun pr => pr.1) = true ∧
    (compile_patterns pol).manipulation_patterns.all (fun pr => pr.1) = true ∧
    (compile_patterns pol).preset_allowed.all (fun pr => !pr.1) = true ∧
    (compile_patterns pol).whitelist.all (fun pr => !pr.1) = true ∧
    (compile_patterns pol).blacklist.all (fun pr => !pr.1) = true ∧
    check_command polWlLs "WIPEFS /dev/sda" = check_command polWlLs "wipefs /dev/sda" ∧
    check_command polWlLs "ls" ≠ check_command polWlLs "LS" := by
  refine ⟨?_, ?_, ?_, ?_, ?_, by decide, by decide⟩ <;>
    simp [compile_patterns, List.all_map, Function.comp]

end Ganesha

namespace Ganesha

open Re

/-- C7 counterexample: `check_command` can allow a command with decision risk
`low` while the lexical heuristic `get_risk_level` rates the same command
`high` — the decision risk is *not* at least the heuristic risk, because
`check_command` never consults `get_risk_level`. -/
theorem risk_heuristic_counterexample :
    check_command polWlSudo "sudo ls" = (true, "low", "Matched whitelist") ∧
    get_risk_level "sudo ls" = "high" ∧
    riskRank "low" < riskRank "high" := by
  refine ⟨by decide, by decide, by decide⟩

/-- C7 amended: `check_command` does not incorporate the lexical risk
heuristic; whenever it allows a command the reported risk is `low` (whitelist
or preset match) or `medium` (blacklist mode), regardless of
`get_risk_level`, which can therefore exceed the decision's risk. -/
theorem allowed_risk_is_low_or_medium (pol : AccessPolicy) (c : String)
    (h : (check_command pol c).1 = true) :
    (check_command pol c).2.1 = "low" ∨ (check_command pol c).2.1 = "medium" := by
  unfold check_command at h ⊢
  by_cases h1 : ((compile_patterns pol).always_denied.any
      fun pr => cpSearch pr (pyStrip c.data)) = true
  · rw [if_pos h1] at h; simp at h
  rw [if_neg h1] at h ⊢
  by_cases h2 : ((compile_patterns pol).blacklist.any
      fun pr => cpSearch pr (pyStrip c.data)) = true
  · rw [if_pos h2] at h; simp at h
  rw [if_neg h2] at h ⊢
  by_cases h3 : pol.level = AccessLevel.WHITELIST
  · rw [if_pos h3] at h ⊢
    by_cases h4 : ((compile_patterns pol).whitelist.any
        fun pr => cpSearch pr (pyStrip c.data)) = true
    · rw [if_pos h4]; left; rfl
    · rw [if_neg h4] at h; simp at h
  rw [if_neg h3] at h ⊢
  by_cases h5 : pol.level = AccessLevel.BLACKLIST
  · rw [if_pos h5]; right; rfl
  rw [if_neg h5] at h ⊢
  by_cases h6 : ((compile_patterns pol).preset_allowed.any
      fun pr => cpMatch pr (pyStrip c.data)) = true
  · rw [if_pos h6]; left; rfl
  · rw [if_neg h6] at h; simp at h

/-- Witness for the amended C7 at `sudo ls` under the `sudo` whitelist. -/
theorem allowed_risk_is_low_or_medium_witness :
    (check_command polWlSudo "sudo ls").1 = true ∧
    ((check_command polWlSudo "sudo ls").2.1 = "low" ∨
     (check_command polWlSudo "sudo ls").2.1 = "medium") :=
  ⟨by decide, allowed_risk_is_low_or_medium polWlSudo "sudo ls" (by decide)⟩

end Ganesha

namespace Ganesha

open Re


/-- `any` over a mapped list. -/
theorem any_map_eq {α β : Type} (f : α → β) (l : List α) (p : β → Bool) :
    (l.map f).any p = l.any (fun a => p (f a)) := by
  induction l with
  | nil => rfl
  | cons x xs ih => simp [ih]

/-- Characterization of the `allowed` component of `check_command` in terms
of the policy's raw pattern lists. -/
theorem check_command_allowed_iff (pol : AccessPolicy) (c : String) :
    (check_command pol c).1 = true ↔
      (ALWAYS_DENIED.any (fun r => rsearch true r (pyStrip c.data)) = false ∧
       pol.blacklist.any (fun r => rsearch false r (pyStrip c.data)) = false ∧
       ((pol.level = .WHITELIST ∧
           pol.whitelist.any (fun r => rsearch false r (pyStrip c.data)) = true) ∨
        pol.level = .BLACKLIST ∨
        (pol.level ≠ .WHITELIST ∧ pol.level ≠ .BLACKLIST ∧
           (preset_allowed_for pol.level).any
             (fun r => rmatch false r (pyStrip c.data)) = true))) := by
  have had : ((compile_patterns pol).always_denied.any
      fun pr => cpSearch pr (pyStrip c.data)) =
      ALWAYS_DENIED.any (fun r => rsearch true r (pyStrip c.data)) := by
    simp [compile_patterns, cpSearch, any_map_eq]
  have hbl : ((compile_patterns pol).blacklist.any
      fun pr => cpSearch pr (pyStrip c.data)) =
      pol.blacklist.any (fun r => rsearch false r (pyStrip c.data)) := by
    simp [compile_patterns, cpSearch, any_map_eq]
  have hwl : ((compile_patterns pol).whitelist.any
      fun pr => cpSearch pr (pyStrip c.data)) =
      pol.whitelist.any (fun r => rsearch false r (pyStrip c.data)) := by
    simp [compile_patterns, cpSearch, any_map_eq]
  have hpr : ((compile_patterns pol).preset_allowed.any
      fun pr => cpMatch pr (pyStrip c.data)) =
      (preset_allowed_for pol.level).any
        (fun r => rmatch false r (pyStrip c.data)) := by
    simp [compile_patterns, cpMatch, any_map_eq]
  unfold check_command
  dsimp only
  rw [had, hbl, hwl, hpr]
  split_ifs with h1 h2 h3 h4 h5 h6 <;> simp_all

end Ganesha

namespace Ganesha

open Re

/-- C8: policy changes are monotone in the expected direction.  Appending an
entry to the whitelist never turns an allowed command into a denied one, and
appending an entry to the blacklist never turns a denied command into an
allowed one. -/
theorem policy_change_monotone (pol : AccessPolicy) (c : String) (w b : Regex) :
    ((check_command pol c).1 = true →
      (check_command { pol with whitelist := pol.whitelist ++ [w] } c).1 = true) ∧
    ((check_command pol c).1 = false →
      (check_command { pol with blacklist := pol.blacklist ++ [b] } c).1 = false) := by
  constructor
  · intro h
    rw [check_command_allowed_iff] at h
    rw [check_command_allowed_iff]
    obtain ⟨had, hbl, hrest⟩ := h
    refine ⟨had, hbl, ?_⟩
    rcases hrest with ⟨hlev, hwl⟩ | hlev | ⟨h1, h2, hps⟩
    · exact Or.inl ⟨hlev, by simp [List.any_append, hwl]⟩
    · exact Or.inr (Or.inl hlev)
    · exact Or.inr (Or.inr ⟨h1, h2, hps⟩)
  · intro h
    have h' : ¬ (check_command pol c).1 = true := by simp [h]
    rw [check_command_allowed_iff] at h'
    by_contra hx
    have hx' : (check_command { pol with blacklist := pol.blacklist ++ [b] } c).1
        = true := by
      cases hb : (check_command { pol with blacklist := pol.blacklist ++ [b] } c).1
      · exact absurd hb hx
      · rfl
    rw [check_command_allowed_iff] at hx'
    obtain ⟨had, hbl, hrest⟩ := hx'
    apply h'
    have hbl' : pol.blacklist.any
        (fun r => rsearch false r (pyStrip c.data)) = false := by
      simp only [List.any_append] at hbl
      exact (Bool.or_eq_false_iff.mp hbl).1
    exact ⟨had, hbl', hrest⟩

/-- Witness for C8: under the `ls` whitelist policy, `ls` stays allowed after
appending `uptime` to the whitelist, and `LS` (denied) stays denied after
appending `uptime` to the blacklist. -/
theorem policy_change_monotone_witness :
    (check_command polWlLs "ls").1 = true ∧
    (check_command { polWlLs with
        whitelist := polWlLs.whitelist ++ [rstr "uptime"] } "ls").1 = true ∧
    (check_command polWlLs "LS").1 = false ∧
    (check_command { polWlLs with
        blacklist := polWlLs.blacklist ++ [rstr "uptime"] } "LS").1 = false := by
  have h := policy_change_monotone polWlLs "ls" (rstr "uptime") (rstr "uptime")
  have h2 := policy_change_monotone polWlLs "LS" (rstr "uptime") (rstr "uptime")
  exact ⟨by decide, h.1 (by decide), by decide, h2.2 (by decide)⟩

end Ganesha

/-! **Privileged daemon (`src/ganesha/daemon/privileged.py`)**
-/

namespace Ganesha

open Re

/-- `CommandRequest` (dataclass in the source). -/
structure CommandRequest where
  command : String
  working_dir : String := "/tmp"
  timeout : Int := 60
  request_id : String := ""
  user : String := ""
  timestamp : String := ""
deriving DecidableEq, Repr

/-- `CommandResponse` (dataclass in the source). -/
structure CommandResponse where
  success : Bool
  output : String
  error : String
  exit_code : Int
  risk_level : String
  request_id : String
  execution_time_ms : Int
deriving DecidableEq, Repr

/-- One entry appended to the audit log by `AuditLogger.log` (the
`timestamp` field, `datetime.now()`, is the only field not modelled). -/
structure AuditEntry where
  action : String
  user : String
  command : String
  allowed : Bool
  risk_level : String
  reason : String
  result : Option String := none
deriving DecidableEq, Repr

/-- Behaviour of the spawned child shell, supplied as an oracle: how long
`process.communicate()` would take (`duration`, in seconds, compared against
the `asyncio.wait_for` timeout), what it returns, and the wall-clock
`execution_time_ms` the daemon measures. -/
structure ChildRun where
  duration : Int
  returncode : Int
  stdout : String := ""
  stderr : String := ""
  elapsed_ms : Int := 0
deriving DecidableEq, Repr

/-- Outcome of `asyncio.create_subprocess_shell`: either the child is
spawned and behaves as `ChildRun`, or spawning itself raises. -/
inductive ExecOutcome where
  | run (r : ChildRun)
  | raise (msg : String) (elapsed_ms : Int)
deriving DecidableEq, Repr

/-- The timeout actually passed to `asyncio.wait_for` by
`PrivilegedDaemon._process_request`:
`min(request.timeout, self.policy.max_execution_time)`. -/
def effective_timeout (req : CommandRequest) (pol : AccessPolicy) : Int :=
  min req.timeout pol.max_execution_time

/-- `AuditLogger.log` truncates the command to 500 characters and the result
to 200. -/
def audit_entry (action user command : String) (allowed : Bool)
    (risk_level reason : String) (result : Option String := none) : AuditEntry :=
  { action, user, command := command.take 500, allowed, risk_level, reason,
    result := result.map (fun r => r.take 200) }

/-- `PrivilegedDaemon._process_request`, as a pure function from the policy,
the request and the child-execution oracle to the response and the audit-log
entries written while processing this request.  A timeout occurs when the
child takes longer than the effective (clamped) timeout; in that branch the
source kills the child (`process.kill()` — the child only, not its process
group), responds, and writes no audit entry. -/
def process_request (pol : AccessPolicy) (req : CommandRequest)
    (out : ExecOutcome) : CommandResponse × List AuditEntry :=
  let d := check_command pol req.command
  if d.1 = false then
    ({ success := false, output := "", error := "Access denied: " ++ d.2.2,
       exit_code := -1, risk_level := d.2.1, request_id := req.request_id,
       execution_time_ms := 0 },
     [audit_entry "command_denied" req.user req.command false d.2.1 d.2.2])
  else
    match out with
    | .run run =>
      if run.duration > effective_timeout req pol then
        ({ success := false, output := "",
           error := "Command timed out after " ++ toString req.timeout ++ "s",
           exit_code := -1, risk_level := d.2.1, request_id := req.request_id,
           execution_time_ms := run.elapsed_ms },
         [])
      else
        ({ success := run.returncode == 0, output := run.stdout,
           error := run.stderr, exit_code := run.returncode,
           risk_level := d.2.1, request_id := req.request_id,
           execution_time_ms := run.elapsed_ms },
         [audit_entry "command_executed" req.user req.command true d.2.1 d.2.2
            (some ("exit_code=" ++ toString run.returncode))])
    | .raise msg ems =>
        ({ success := false, output := "", error := msg, exit_code := -1,
           risk_level := d.2.1, request_id := req.request_id,
           execution_time_ms := ems },
         [audit_entry "command_error" req.user req.command true d.2.1 msg])

end Ganesha

/-! **Privileged client (`src/ganesha/daemon/client.py`)**
-/

namespace Ganesha

open Re

/-- `PrivilegedResult` (dataclass in the source). -/
structure PrivilegedResult where
  success : Bool
  output : String
  error : String
  exit_code : Int
  risk_level : String
  execution_time_ms : Int
  used_daemon : Bool
deriving DecidableEq, Repr

/-- `PrivilegedClient._execute_direct`, as a pure function.  `polOpt` is the
locally loaded policy (`None` when `load_policy()` raised, leaving
`self._controller` unset).  The second component of the result records
whether the command was actually spawned via
`asyncio.create_subprocess_shell`.  Note the source unpacks
`check_command` as `_, risk_level, _` — the `allowed` flag is discarded and
the command is spawned unconditionally. -/
def execute_direct (polOpt : Option AccessPolicy) (command : String)
    (timeout : Int) (out : ExecOutcome) : PrivilegedResult × Bool :=
  let risk_level := match polOpt with
    | none => "unknown"
    | some pol => (check_command pol command).2.1
  match out with
  | .raise msg ems =>
      ({ success := false, output := "", error := msg, exit_code := -1,
         risk_level, execution_time_ms := ems, used_daemon := false }, false)
  | .run run =>
      if run.duration > timeout then
        ({ success := false, output := "",
           error := "Command timed out after " ++ toString timeout ++ "s",
           exit_code := -1, risk_level, execution_time_ms := run.elapsed_ms,
           used_daemon := false }, true)
      else
        ({ success := run.returncode == 0, output := run.stdout,
           error := run.stderr, exit_code := run.returncode, risk_level,
           execution_time_ms := run.elapsed_ms, used_daemon := false }, true)

end Ganesha

namespace Ganesha

open Re

/-- A whitelist-mode policy allowing `uptime`, used in daemon witnesses. -/
def polWlUp : AccessPolicy := { level := .WHITELIST, whitelist := [rstr "uptime"] }

/-- A request whose client-supplied timeout is below 1. -/
def reqT0 : CommandRequest := { command := "uptime", timeout := 0 }

/-- A request with timeout 2 s whose child would take 10 s. -/
def reqT2 : CommandRequest := { command := "uptime", timeout := 2, request_id := "r1" }

/-- A child taking 10 s and exiting 0. -/
def runSlow : ChildRun := { duration := 10, returncode := 0, elapsed_ms := 2000 }

/-- C4 counterexample: the daemon does not clamp `timeout_seconds` from
below.  For a request with `timeout_seconds = 0` the effective timeout passed
to `asyncio.wait_for` is `0`, not `1` as the claim states. -/
theorem timeout_lower_clamp_counterexample :
    effective_timeout reqT0 polWlUp = 0 ∧ (0 : Int) ≠ 1 := by
  refine ⟨by decide, by decide⟩

/-- C4 amended: the daemon waits with `min(request.timeout,
policy.max_execution_time)`: a timeout above the policy maximum is reduced
to the maximum, but a timeout below 1 is passed through unchanged.
Behaviourally, for an allowed command the timeout branch (which writes no
audit entry, unlike the denied/executed/error branches) is taken exactly when
the child outlives that minimum. -/
theorem timeout_clamp_amended (pol : AccessPolicy) (req : CommandRequest)
    (run : ChildRun) (h : (check_command pol req.command).1 = true) :
    (pol.max_execution_time ≤ req.timeout →
       effective_timeout req pol = pol.max_execution_time) ∧
    (req.timeout ≤ pol.max_execution_time →
       effective_timeout req pol = req.timeout) ∧
    ((process_request pol req (.run run)).2 = [] ↔
       run.duration > effective_timeout req pol) := by
  refine ⟨fun hle => min_eq_right hle, fun hle => min_eq_left hle, ?_⟩
  unfold process_request
  dsimp only
  rw [if_neg (by simp [h])]
  by_cases hd : run.duration > effective_timeout req pol
  · rw [if_pos hd]; simp [hd]
  · rw [if_neg hd]; simp [hd]

/-- Witness for the amended C4: `uptime` under the `uptime` whitelist with
client timeout 1000 s against a policy maximum of 300 s; the child takes
400 s, which exceeds `min 1000 300`, so the request times out. -/
theorem timeout_clamp_amended_witness :
    (check_command polWlUp "uptime").1 = true ∧
    ((process_request polWlUp { command := "uptime", timeout := 1000 }
        (.run { duration := 400, returncode := 0 })).2 = [] ↔
      (400 : Int) > effective_timeout { command := "uptime", timeout := 1000 } polWlUp) :=
  ⟨by decide,
   (timeout_clamp_amended polWlUp { command := "uptime", timeout := 1000 }
      { duration := 400, returncode := 0 } (by decide)).2.2⟩

/-- C5 counterexample: on timeout the daemon's response error is
`"Command timed out after 2s"`, not `"timeout"`, and no audit event at all is
emitted (in particular no `TIMEOUT` event logged at ERROR — the daemon never
uses the system logger's `TIMEOUT` event id). -/
theorem timeout_event_counterexample :
    (process_request polWlUp reqT2 (.run runSlow)).1.error =
      "Command timed out after 2s" ∧
    "Command timed out after 2s" ≠ "timeout" ∧
    (process_request polWlUp reqT2 (.run runSlow)).2 = [] := by
  refine ⟨by decide, by decide, by decide⟩

/-- C5 amended: when an approved command outlives the effective timeout, the
daemon kills the child (only the child — no process-group kill), responds
with `success = false`, `exit_code = -1` and the error string
`"Command timed out after <request.timeout>s"`, and writes no audit entry. -/
theorem timeout_branch_behaviour (pol : AccessPolicy) (req : CommandRequest)
    (run : ChildRun) (h : (check_command pol req.command).1 = true)
    (ht : run.duration > effective_timeout req pol) :
    (process_request pol req (.run run)).1 =
      { success := false, output := "",
        error := "Command timed out after " ++ toString req.timeout ++ "s",
        exit_code := -1, risk_level := (check_command pol req.command).2.1,
        request_id := req.request_id, execution_time_ms := run.elapsed_ms } ∧
    (process_request pol req (.run run)).2 = [] := by
  unfold process_request
  dsimp only
  rw [if_neg (by simp [h]), if_pos ht]
  exact ⟨rfl, rfl⟩

/-- Witness for the amended C5 at the concrete timed-out request. -/
theorem timeout_branch_behaviour_witness :
    (check_command polWlUp "uptime").1 = true ∧
    (10 : Int) > effective_timeout reqT2 polWlUp ∧
    (process_request polWlUp reqT2 (.run runSlow)).1 =
      { success := false, output := "",
        error := "Command timed out after " ++ toString reqT2.timeout ++ "s",
        exit_code := -1, risk_level := (check_command polWlUp "uptime").2.1,
        request_id := reqT2.request_id, execution_time_ms := runSlow.elapsed_ms } ∧
    (process_request polWlUp reqT2 (.run runSlow)).2 = [] := by
  have h := timeout_branch_behaviour polWlUp reqT2 runSlow (by decide) (by decide)
  exact ⟨by decide, by decide, h.1, h.2⟩

/-- C1 failing input: `_execute_direct` does not honor `ALWAYS_DENIED`.
`wipefs /dev/sda` matches a hardcoded deny pattern and `check_command`
denies it, yet `_execute_direct` (which discards the `allowed` flag)
spawns the command anyway and reports its successful exit. -/
theorem execute_direct_runs_denied_command :
    ALWAYS_DENIED.any
      (fun r => rsearch true r (pyStrip ("wipefs /dev/sda").data)) = true ∧
    (check_command polStd "wipefs /dev/sda").1 = false ∧
    (execute_direct (some polStd) "wipefs /dev/sda" 60
        (.run { duration := 1, returncode := 0, elapsed_ms := 5 })).2 = true ∧
    (execute_direct (some polStd) "wipefs /dev/sda" 60
        (.run { duration := 1, returncode := 0, elapsed_ms := 5 })).1.success = true := by
  refine ⟨by decide, by decide, by decide, by decide⟩

end Ganesha

/-! **Core engine (`src/ganesha/core/engine.py`)**
-/

namespace Ganesha

/-- `TaskState` (source enum). -/
inductive TaskState where
  | PENDING
  | PLANNING
  | AWAITING_CONSENT
  | EXECUTING
  | ITERATING
  | COMPLETED
  | FAILED
  | CANCELLED
deriving DecidableEq, Repr

/-- `ActionType` (source enum). -/
inductive ActionType where
  | SHELL_COMMAND
  | FILE_READ
  | FILE_WRITE
  | FILE_DELETE
  | CODE_GENERATE
  | CODE_EXECUTE
  | API_CALL
  | SYSTEM_INFO
deriving DecidableEq, Repr

/-- `Action` (source dataclass).  The `id` default is `uuid4()[:8]` in the
source — an opaque fresh string; the model takes ids as given data and uses
`""` where the source would draw a fresh uuid. -/
structure Action where
  id : String := ""
  type : ActionType := .SHELL_COMMAND
  command : String := ""
  explanation : String := ""
  reversible : Bool := true
  rollback_command : Option String := none
  risk_level : String := "low"
  requires_consent : Bool := true
deriving DecidableEq, Repr

/-- `ExecutionResult` (source dataclass). -/
structure ExecutionResult where
  success : Bool
  output : String := ""
  error : String := ""
  duration_ms : Int := 0
  action_id : Option String := none
deriving DecidableEq, Repr

/-- `ExecutionPlan` (source dataclass; the free-form `context` dict and the
`created_at` timestamp are not modelled). -/
structure ExecutionPlan where
  id : String := ""
  task : String := ""
  actions : List Action := []
deriving DecidableEq, Repr

/-- `Session` (source dataclass; the `started_at`/`completed_at` wall-clock
timestamps are not modelled). -/
structure Session where
  id : String := ""
  task : String := ""
  state : TaskState := .PENDING
  plan : Option ExecutionPlan := none
  executed_actions : List Action := []
  results : List ExecutionResult := []
deriving DecidableEq, Repr

/-- `Session.add_result`. -/
def Session.add_result (s : Session) (a : Action) (r : ExecutionResult) : Session :=
  { s with executed_actions := s.executed_actions ++ [a],
           results := s.results ++ [r] }

/-- Python truthiness of `action.rollback_command` (an `Optional[str]`):
`None` and `""` are falsy. -/
def optTruthy : Option String → Bool
  | none => false
  | some s => !s.isEmpty

/-- The new `Action` built for one rollback entry:
`Action(type=action.type, command=action.rollback_command,
explanation=f"Rollback: {action.explanation}", requires_consent=True)`;
every other field takes its dataclass default. -/
def rollback_wrap (a : Action) : Action :=
  { type := a.type, command := a.rollback_command.getD "",
    explanation := "Rollback: " ++ a.explanation, requires_consent := true }

/-- `Session.get_rollback_actions`: iterate `reversed(executed_actions)`,
keep the reversible entries with a truthy `rollback_command`, append the
wrapped action for each. -/
def Session.get_rollback_actions (s : Session) : List Action :=
  s.executed_actions.reverse.foldl
    (fun acc a =>
      if a.reversible && optTruthy a.rollback_command then acc ++ [rollback_wrap a]
      else acc)
    []

/-- The two oracles the execute loop consults: `_execute_action` (what a
given action's execution returns) and `_plan_recovery` (the LLM-produced
recovery plan for a failed action, if any). -/
structure ExecEnv where
  exec : Action → ExecutionResult
  recovery : Action → ExecutionResult → Option ExecutionPlan

/-- The inner `for action in plan.actions` loop of `GaneshaEngine.execute`:
skips unapproved actions, records each result, and on a failure when another
iteration is still available (`iteration < max_iterations`) asks for a
recovery plan — breaking out with it if one is produced.  Returns the
updated session, the `all_success` flag, and the recovery plan if the loop
broke. -/
def run_actions (env : ExecEnv) (approved : List String) (canRecover : Bool) :
    List Action → Session → Bool → Session × Bool × Option ExecutionPlan
  | [], sess, allSuccess => (sess, allSuccess, none)
  | a :: rest, sess, allSuccess =>
    if approved.contains a.id then
      let result := env.exec a
      let sess' := sess.add_result a result
      if result.success then
        run_actions env approved canRecover rest sess' allSuccess
      else if canRecover then
        match env.recovery a result with
        | some rp => (sess', false, some rp)
        | none => run_actions env approved canRecover rest sess' false
      else
        run_actions env approved canRecover rest sess' false
    else
      run_actions env approved canRecover rest sess allSuccess

/-- The `while iteration < max_iterations` loop of `GaneshaEngine.execute`.
`fuel` is the number of remaining iterations (initially `maxIter`), `iter`
the number already done. -/
def exec_loop (env : ExecEnv) (approved : List String) (maxIter : Nat) :
    Nat → Nat → ExecutionPlan → Session → Session
  | 0, _, _, sess => sess
  | fuel + 1, iter, plan, sess =>
    let iter' := iter + 1
    match run_actions env approved (decide (iter' < maxIter)) plan.actions sess true with
    | (sess', _, some newPlan) => exec_loop env approved maxIter fuel iter' newPlan sess'
    | (sess', allSuccess, none) =>
      if allSuccess then sess'
      else exec_loop env approved maxIter fuel iter' plan sess'

/-- `GaneshaEngine.execute` as a pure function: the plan comes from the
LLM oracle, consent is `(approved, approved_ids)`.  After the iteration
loop the source sets `state = TaskState.COMPLETED` unconditionally —
whether or not every approved action succeeded.  (The `except` branch that
sets `FAILED`, and session serialization, are not modelled: the pure model
raises no exceptions.) -/
def engine_execute (env : ExecEnv) (task : String)
    (consent : Bool × List String) (plan : ExecutionPlan) (maxIter : Nat) :
    Session :=
  let sess0 : Session := { task := task, state := .PLANNING }
  let sess1 : Session := { sess0 with plan := some plan, state := .AWAITING_CONSENT }
  if !consent.1 then
    { sess1 with state := .CANCELLED }
  else
    let sess2 := { sess1 with state := .EXECUTING }
    let final := exec_loop env consent.2 maxIter maxIter 0 plan sess2
    { final with state := .COMPLETED }

end Ganesha

namespace Ganesha

/-- An environment in which every action fails and no recovery plan is ever
produced. -/
def failEnv : ExecEnv :=
  { exec := fun a => { success := false, error := "boom", action_id := some a.id },
    recovery := fun _ _ => none }

/-- A one-action plan whose single action is approved below. -/
def planA : ExecutionPlan :=
  { id := "p1", task := "t", actions := [{ id := "a1", command := "false" }] }

/-- C3 failing input: with one approved action that fails on every attempt
and no recovery plan, all three iterations are exhausted with failures — yet
the session's final state is `COMPLETED` (the source sets `COMPLETED`
unconditionally after the loop, ignoring the `all_success` flag it
tracked). -/
theorem session_completed_despite_failures :
    (engine_execute failEnv "t" (true, ["a1"]) planA 3).state =
      TaskState.COMPLETED ∧
    (engine_execute failEnv "t" (true, ["a1"]) planA 3).results ≠ [] ∧
    ((engine_execute failEnv "t" (true, ["a1"]) planA 3).results.all
      (fun r => !r.success)) = true := by
  refine ⟨by decide, by decide, by decide⟩

/-- Accumulator lemma for the rollback fold. -/
theorem foldl_rollback_acc (l : List Action) (acc : List Action) :
    l.foldl
      (fun acc a =>
        if a.reversible && optTruthy a.rollback_command then acc ++ [rollback_wrap a]
        else acc)
      acc =
    acc ++ (l.filter
      (fun a => a.reversible && optTruthy a.rollback_command)).map rollback_wrap := by
  induction l generalizing acc with
  | nil => simp
  | cons x xs ih =>
    simp only [List.foldl_cons, List.filter_cons]
    by_cases hx : (x.reversible && optTruthy x.rollback_command) = true
    · rw [if_pos hx, if_pos hx, ih, List.map_cons, List.append_assoc]
      rfl
    · rw [if_neg hx, if_neg hx, ih]

/-- C9: the rollback list is exactly the reversible executed actions with a
non-empty `rollback_command`, in reverse execution order, each wrapped into
a new `Action` whose command is the original `rollback_command`. -/
theorem get_rollback_actions_spec (s : Session) :
    s.get_rollback_actions =
      ((s.executed_actions.filter
          (fun a => a.reversible && optTruthy a.rollback_command)).reverse).map
        rollback_wrap := by
  unfold Session.get_rollback_actions
  rw [foldl_rollback_acc]
  simp [List.filter_reverse]

end Ganesha

/-! **Matcher theory**

The lemmas below culminate in `Re.rsearch_strip`: for the pattern shapes used
by the self-invocation guard, a `re.search` hit on a raw command transfers to
its stripped form.  This is what connects `is_self_invocation` (which
searches the raw command) to `check_command` (which strips first).
-/

namespace Re

theorem fbound_pos (r : Regex) (s : List Char) : 0 < fbound r s :=
  Nat.mul_pos (Nat.succ_pos _) (Nat.succ_pos _)

theorem fbound_mono_len (r : Regex) {s t : List Char} (h : t.length ≤ s.length) :
    fbound r t ≤ fbound r s :=
  Nat.mul_le_mul_right _ (Nat.succ_le_succ h)

theorem fb_seq_a (a b : Regex) (s : List Char) :
    fbound a s + 1 ≤ fbound (Regex.seq a b) s := by
  simp only [fbound, rsize]; nlinarith [s.length.zero_le, (rsize b).zero_le]

theorem fb_seq_b (a b : Regex) {s t : List Char} (h : t.length ≤ s.length) :
    fbound b t + 1 ≤ fbound (Regex.seq a b) s := by
  simp only [fbound, rsize]
  have h1 : (t.length + 1) * (rsize b + 1) ≤ (s.length + 1) * (rsize b + 1) :=
    Nat.mul_le_mul_right _ (Nat.succ_le_succ h)
  nlinarith [s.length.zero_le, (rsize a).zero_le]

theorem fb_alt_a (a b : Regex) (s : List Char) :
    fbound a s + 1 ≤ fbound (Regex.alt a b) s := by
  simp only [fbound, rsize]; nlinarith [s.length.zero_le, (rsize b).zero_le]

theorem fb_alt_b (a b : Regex) (s : List Char) :
    fbound b s + 1 ≤ fbound (Regex.alt a b) s := by
  simp only [fbound, rsize]; nlinarith [s.length.zero_le, (rsize a).zero_le]

theorem fb_star_body (r : Regex) (s : List Char) :
    fbound r s + 1 ≤ fbound (Regex.star r) s := by
  simp only [fbound, rsize]; nlinarith [s.length.zero_le]

theorem fb_star_rec (r : Regex) {s t : List Char} (h : t.length < s.length) :
    fbound (Regex.star r) t + 1 ≤ fbound (Regex.star r) s := by
  simp only [fbound]
  have h1 : (t.length + 1) * (rsize (Regex.star r) + 1) + 1 ≤
      s.length * (rsize (Regex.star r) + 1) + 1 :=
    Nat.add_le_add_right (Nat.mul_le_mul_right _ h) 1
  nlinarith [(rsize (Regex.star r)).zero_le]

theorem fb_nla (r : Regex) (s : List Char) :
    fbound r s + 1 ≤ fbound (Regex.nla r) s := by
  simp only [fbound, rsize]; nlinarith [s.length.zero_le]

/-- Every state the matcher can reach has a remaining input that is a suffix
of the starting input. -/
theorem mtch_suffix (ic : Bool) :
    ∀ (f : Nat) (r : Regex) (p : Option Char) (s : List Char),
      ∀ st ∈ mtch ic f r p s, st.2 <:+ s := by
  intro f
  induction f with
  | zero => intro r p s st hst; simp [mtch] at hst
  | succ f ih =>
    intro r p s st hst
    cases r with
    | eps => simp [mtch] at hst; simp [hst]
    | lit c =>
      cases s with
      | nil => simp [mtch] at hst
      | cons x xs =>
        simp only [mtch] at hst
        split at hst <;> simp_all
    | cls items =>
      cases s with
      | nil => simp [mtch] at hst
      | cons x xs =>
        simp only [mtch] at hst
        split at hst <;> simp_all
    | dot =>
      cases s with
      | nil => simp [mtch] at hst
      | cons x xs =>
        simp only [mtch] at hst
        split at hst <;> simp_all
    | seq a b =>
      simp only [mtch, List.mem_flatMap] at hst
      obtain ⟨st1, h1, h2⟩ := hst
      exact (ih b st1.1 st1.2 st h2).trans (ih a p s st1 h1)
    | alt a b =>
      simp only [mtch, List.mem_append] at hst
      rcases hst with h | h
      · exact ih a p s st h
      · exact ih b p s st h
    | star r =>
      simp only [mtch, List.mem_cons, List.mem_flatMap, List.mem_filter] at hst
      rcases hst with rfl | ⟨st1, ⟨h1, _⟩, h2⟩
      · exact List.suffix_refl s
      · exact (ih (Regex.star r) st1.1 st1.2 st h2).trans (ih r p s st1 h1)
    | bol =>
      simp only [mtch] at hst
      split at hst <;> simp_all
    | eol =>
      simp only [mtch] at hst
      split at hst <;> simp_all
    | wordB =>
      simp only [mtch] at hst
      split at hst <;> simp_all
    | nla r =>
      simp only [mtch] at hst
      split at hst <;> simp_all

end Re

namespace Re

theorem flatMap_congr {α β : Type} {l : List α} {f g : α → List β}
    (h : ∀ x ∈ l, f x = g x) : l.flatMap f = l.flatMap g := by
  induction l with
  | nil => rfl
  | cons x xs ih =>
    simp only [List.flatMap_cons]
    rw [h x (List.mem_cons_self x xs), ih (fun y hy => h y (List.mem_cons_of_mem x hy))]

/-- The matcher's result does not depend on the fuel once the fuel is at
least `fbound r s`. -/
theorem mtch_fuel_irrel (ic : Bool) :
    ∀ (f f' : Nat) (r : Regex) (p : Option Char) (s : List Char),
      fbound r s ≤ f → fbound r s ≤ f' → mtch ic f r p s = mtch ic f' r p s := by
  intro f
  induction f with
  | zero =>
    intro f' r p s h _
    exact absurd h (by have := fbound_pos r s; omega)
  | succ f ih =>
    intro f' r p s h h'
    cases f' with
    | zero => exact absurd h' (by have := fbound_pos r s; omega)
    | succ f'' =>
      cases r with
      | eps => rfl
      | lit c => cases s <;> rfl
      | cls items => cases s <;> rfl
      | dot => cases s <;> rfl
      | bol => rfl
      | eol => rfl
      | wordB => rfl
      | seq a b =>
        have ha : fbound a s ≤ f := by have := fb_seq_a a b s; omega
        have ha' : fbound a s ≤ f'' := by have := fb_seq_a a b s; omega
        simp only [mtch]
        rw [ih f'' a p s ha ha']
        exact flatMap_congr (fun st hst => by
          have hsuf : st.2.length ≤ s.length :=
            (mtch_suffix ic f'' a p s st hst).length_le
          have hb : fbound b st.2 ≤ f := by have := fb_seq_b a b hsuf; omega
          have hb' : fbound b st.2 ≤ f'' := by have := fb_seq_b a b hsuf; omega
          exact ih f'' b st.1 st.2 hb hb')
      | alt a b =>
        have ha : fbound a s ≤ f := by have := fb_alt_a a b s; omega
        have ha' : fbound a s ≤ f'' := by have := fb_alt_a a b s; omega
        have hb : fbound b s ≤ f := by have := fb_alt_b a b s; omega
        have hb' : fbound b s ≤ f'' := by have := fb_alt_b a b s; omega
        simp only [mtch]
        rw [ih f'' a p s ha ha', ih f'' b p s hb hb']
      | star r =>
        have hr : fbound r s ≤ f := by have := fb_star_body r s; omega
        have hr' : fbound r s ≤ f'' := by have := fb_star_body r s; omega
        simp only [mtch]
        rw [ih f'' r p s hr hr']
        refine congrArg _ (flatMap_congr (fun st hst => ?_))
        have hlt : st.2.length < s.length := by
          have := (List.mem_filter.mp hst).2
          simpa using this
        have h1 : fbound (Regex.star r) st.2 ≤ f := by
          have := fb_star_rec r hlt; omega
        have h1' : fbound (Regex.star r) st.2 ≤ f'' := by
          have := fb_star_rec r hlt; omega
        exact ih f'' (Regex.star r) st.1 st.2 h1 h1'
      | nla r =>
        have hr : fbound r s ≤ f := by have := fb_nla r s; omega
        have hr' : fbound r s ≤ f'' := by have := fb_nla r s; omega
        simp only [mtch]
        rw [ih f'' r p s hr hr']

end Re

namespace Re

/-- Can the regex match the empty string (syntactic over-approximation is
not needed: this is exact for our constructors)? -/
def nullable : Regex → Bool
  | .eps | .bol | .eol | .wordB => true
  | .nla _ => true
  | .lit _ | .cls _ | .dot => false
  | .seq a b => nullable a && nullable b
  | .alt a b => nullable a || nullable b
  | .star _ => true

/-- No negative lookahead anywhere in the regex. -/
def nlaFree : Regex → Bool
  | .nla _ => false
  | .seq a b => nlaFree a && nlaFree b
  | .alt a b => nlaFree a && nlaFree b
  | .star r => nlaFree r
  | _ => true

/-- The first thing every match of the regex does is consume a literal
non-space character. -/
def startsNonSpaceLit : Regex → Bool
  | .lit c => !isSpaceChar c
  | .seq a _ => startsNonSpaceLit a
  | .alt a b => startsNonSpaceLit a && startsNonSpaceLit b
  | _ => false

/-- Every consuming match of the regex ends on a non-space character. -/
def endsNS : Regex → Bool
  | .eps | .bol | .eol | .wordB => true
  | .nla _ => true
  | .lit c => !isSpaceChar c
  | .cls _ => false
  | .dot => false
  | .seq a b => endsNS b && (!nullable b || endsNS a)
  | .alt a b => endsNS a && endsNS b
  | .star r => endsNS r

/-- Whitespace characters are fixed by case conversion. -/
theorem space_toLower_toUpper {x : Char} (h : isSpaceChar x = true) :
    x.toLower = x ∧ x.toUpper = x := by
  simp only [isSpaceChar, Bool.or_eq_true, decide_eq_true_eq] at h
  rcases h with ((((h | h) | h) | h) | h) | h <;> subst h <;> exact ⟨by decide, by decide⟩

/-- A non-space literal never matches a space character, case-folded or
not. -/
theorem litMatches_nonspace {ic : Bool} {c x : Char} (hc : isSpaceChar c = false)
    (hx : isSpaceChar x = true) : litMatches ic c x = false := by
  obtain ⟨hl, hu⟩ := space_toLower_toUpper hx
  simp only [litMatches, hl, hu, Bool.or_eq_false_iff]
  constructor
  · simp only [decide_eq_false_iff_not]
    intro h; subst h; simp_all
  · cases ic
    · rfl
    · simp only [Bool.true_and, Bool.or_eq_false_iff, decide_eq_false_iff_not,
        decide_eq_false_iff_not]
      constructor <;> (intro h; subst h; simp_all)

/-- A regex whose matches must start with a non-space literal matches
nothing on an empty input or on an input starting with whitespace. -/
theorem mtch_startsNonSpaceLit_empty (ic : Bool) :
    ∀ (f : Nat) (r : Regex) (p : Option Char) (s : List Char),
      startsNonSpaceLit r = true →
      (s = [] ∨ ∃ x xs, s = x :: xs ∧ isSpaceChar x = true) →
      mtch ic f r p s = [] := by
  intro f
  induction f with
  | zero => intro r p s _ _; rfl
  | succ f ih =>
    intro r p s hr hs
    cases r with
    | lit c =>
      rcases hs with rfl | ⟨x, xs, rfl, hx⟩
      · rfl
      · simp only [startsNonSpaceLit, Bool.not_eq_true'] at hr
        simp [mtch, litMatches_nonspace hr hx]
    | seq a b =>
      simp only [startsNonSpaceLit] at hr
      simp [mtch, ih a p s hr hs]
    | alt a b =>
      simp only [startsNonSpaceLit, Bool.and_eq_true] at hr
      simp [mtch, ih a p s hr.1 hs, ih b p s hr.2 hs]
    | eps => simp [startsNonSpaceLit] at hr
    | cls items => simp [startsNonSpaceLit] at hr
    | dot => simp [startsNonSpaceLit] at hr
    | star r => simp [startsNonSpaceLit] at hr
    | bol => simp [startsNonSpaceLit] at hr
    | eol => simp [startsNonSpaceLit] at hr
    | wordB => simp [startsNonSpaceLit] at hr
    | nla r => simp [startsNonSpaceLit] at hr

/-- A regex whose matches must start with a literal ignores the
previous-character context. -/
theorem mtch_ctx_irrel (ic : Bool) :
    ∀ (f : Nat) (r : Regex) (p q : Option Char) (s : List Char),
      startsNonSpaceLit r = true →
      mtch ic f r p s = mtch ic f r q s := by
  intro f
  induction f with
  | zero => intro r p q s _; rfl
  | succ f ih =>
    intro r p q s hr
    cases r with
    | lit c => cases s <;> rfl
    | seq a b =>
      simp only [startsNonSpaceLit] at hr
      simp only [mtch]
      rw [ih a p q s hr]
    | alt a b =>
      simp only [startsNonSpaceLit, Bool.and_eq_true] at hr
      simp only [mtch]
      rw [ih a p q s hr.1, ih b p q s hr.2]
    | eps => simp [startsNonSpaceLit] at hr
    | cls items => simp [startsNonSpaceLit] at hr
    | dot => simp [startsNonSpaceLit] at hr
    | star r => simp [startsNonSpaceLit] at hr
    | bol => simp [startsNonSpaceLit] at hr
    | eol => simp [startsNonSpaceLit] at hr
    | wordB => simp [startsNonSpaceLit] at hr
    | nla r => simp [startsNonSpaceLit] at hr

end Re

namespace Re

/-- A match that consumes nothing is only possible for a nullable regex. -/
theorem mtch_nullable_of_same (ic : Bool) :
    ∀ (f : Nat) (r : Regex) (p : Option Char) (s : List Char),
      ∀ st ∈ mtch ic f r p s, st.2 = s → nullable r = true := by
  intro f
  induction f with
  | zero => intro r p s st hst; simp [mtch] at hst
  | succ f ih =>
    intro r p s st hst heq
    cases r with
    | eps => rfl
    | bol => rfl
    | eol => rfl
    | wordB => rfl
    | nla r => rfl
    | star r => rfl
    | lit c =>
      cases s with
      | nil => simp [mtch] at hst
      | cons x xs =>
        simp only [mtch] at hst
        split at hst <;> simp_all
    | cls items =>
      cases s with
      | nil => simp [mtch] at hst
      | cons x xs =>
        simp only [mtch] at hst
        split at hst <;> simp_all
    | dot =>
      cases s with
      | nil => simp [mtch] at hst
      | cons x xs =>
        simp only [mtch] at hst
        split at hst <;> simp_all
    | seq a b =>
      simp only [mtch, List.mem_flatMap] at hst
      obtain ⟨st1, h1, h2⟩ := hst
      have hs1 : st1.2 <:+ s := mtch_suffix ic f a p s st1 h1
      have hs2 : st.2 <:+ st1.2 := mtch_suffix ic f b st1.1 st1.2 st h2
      have hlen : st1.2.length = s.length :=
        le_antisymm hs1.length_le (by rw [← heq]; exact hs2.length_le)
      have hseq : st1.2 = s := hs1.eq_of_length hlen
      simp only [nullable, Bool.and_eq_true]
      exact ⟨ih a p s st1 h1 hseq, ih b st1.1 st1.2 st h2 (heq.trans hseq.symm)⟩
    | alt a b =>
      simp only [mtch, List.mem_append] at hst
      simp only [nullable, Bool.or_eq_true]
      rcases hst with h | h
      · exact Or.inl (ih a p s st h heq)
      · exact Or.inr (ih b p s st h heq)

end Re

namespace Re

theorem consume_nothing_no_last {α : Type} {s w : List α} {x : α}
    (heq : s = w ++ s) (hl : w.getLast? = some x) : False := by
  have h1 : s.length = w.length + s.length := by
    conv_lhs => rw [heq]
    simp
  have h2 : w = [] := List.eq_nil_of_length_eq_zero (by omega)
  subst h2
  simp at hl

theorem single_consume_last {α : Type} {x0 x : α} {xs w : List α}
    (heq : x0 :: xs = w ++ xs) (hl : w.getLast? = some x) : x = x0 := by
  have hlen : w.length = 1 := by
    have := congrArg List.length heq
    simp at this
    omega
  cases w with
  | nil => simp at hl
  | cons y ys =>
    simp only [List.length_cons] at hlen
    have hys : ys = [] := List.eq_nil_of_length_eq_zero (by omega)
    subst hys
    simp at hl heq
    rw [← hl, heq]

theorem suffix_append_split {α : Type} {t u d : List α} (h : t <:+ u ++ d)
    (hlen : d.length ≤ t.length) : ∃ w, t = w ++ d ∧ w <:+ u := by
  obtain ⟨v, hv⟩ := h
  have hvlen : v.length + t.length = u.length + d.length := by
    have := congrArg List.length hv
    simpa using this
  have hu := (List.take_append_drop v.length u).symm
  rw [hu, List.append_assoc] at hv
  have hlen2 : v.length = (u.take v.length).length := by
    simp [List.length_take]
    omega
  obtain ⟨hv1, hv2⟩ := List.append_inj hv hlen2
  exact ⟨u.drop v.length, hv2, ⟨u.take v.length, List.take_append_drop _ u⟩⟩

theorem append_eq_split_left {α : Type} {a b w t : List α} (h : a ++ b = w ++ t)
    (hlen : a.length ≤ w.length) : ∃ w2, w = a ++ w2 ∧ b = w2 ++ t := by
  have hw := (List.take_append_drop a.length w).symm
  rw [hw, List.append_assoc] at h
  have hlen2 : a.length = (w.take a.length).length := by
    simp [List.length_take]
    omega
  obtain ⟨h1, h2⟩ := List.append_inj h hlen2
  exact ⟨w.drop a.length, by rw [← h1] at hw; exact hw, h2⟩

/-- For a regex all of whose consuming matches end on a non-space character,
the last consumed character of any reached state is not whitespace. -/
theorem mtch_endsNS (ic : Bool) :
    ∀ (f : Nat) (r : Regex) (p : Option Char) (s : List Char) (st : MState),
      endsNS r = true → st ∈ mtch ic f r p s →
      ∀ (w : List Char) (x : Char), s = w ++ st.2 → w.getLast? = some x →
      isSpaceChar x = false := by
  intro f
  induction f with
  | zero => intro r p s st _ hst; simp [mtch] at hst
  | succ f ih =>
    intro r p s st hr hst w x heq hlast
    cases r with
    | eps =>
      simp only [mtch, List.mem_singleton] at hst
      subst hst
      exact (consume_nothing_no_last heq hlast).elim
    | bol =>
      simp only [mtch] at hst
      split at hst
      · simp only [List.mem_singleton] at hst
        subst hst
        exact (consume_nothing_no_last heq hlast).elim
      · simp at hst
    | eol =>
      simp only [mtch] at hst
      split at hst
      · simp only [List.mem_singleton] at hst
        subst hst
        exact (consume_nothing_no_last heq hlast).elim
      · simp at hst
    | wordB =>
      simp only [mtch] at hst
      split at hst
      · simp only [List.mem_singleton] at hst
        subst hst
        exact (consume_nothing_no_last heq hlast).elim
      · simp at hst
    | nla r =>
      simp only [mtch] at hst
      split at hst
      · simp only [List.mem_singleton] at hst
        subst hst
        exact (consume_nothing_no_last heq hlast).elim
      · simp at hst
    | cls items => simp [endsNS] at hr
    | dot => simp [endsNS] at hr
    | lit c =>
      simp only [endsNS, Bool.not_eq_true'] at hr
      cases s with
      | nil => simp [mtch] at hst
      | cons x0 xs =>
        simp only [mtch] at hst
        by_cases hm : litMatches ic c x0 = true
        · rw [if_pos hm] at hst
          simp only [List.mem_singleton] at hst
          subst hst
          have hx : x = x0 := single_consume_last heq hlast
          subst hx
          by_cases hx0 : isSpaceChar x = true
          · exact absurd hm (by simp [litMatches_nonspace hr hx0])
          · simpa using hx0
        · rw [if_neg hm] at hst
          simp at hst
    | seq a b =>
      simp only [endsNS, Bool.and_eq_true, Bool.or_eq_true, Bool.not_eq_true'] at hr
      obtain ⟨hrb, hra⟩ := hr
      simp only [mtch, List.mem_flatMap] at hst
      obtain ⟨st1, h1, h2⟩ := hst
      obtain ⟨w1, hw1⟩ := mtch_suffix ic f a p s st1 h1
      obtain ⟨w2, hw2⟩ := mtch_suffix ic f b st1.1 st1.2 st h2
      have hw : w1 ++ w2 = w := by
        have hx : (w1 ++ w2) ++ st.2 = w ++ st.2 := by
          rw [List.append_assoc, hw2, hw1, ← heq]
        exact List.append_cancel_right hx
      by_cases hw2nil : w2 = []
      · subst hw2nil
        simp only [List.nil_append] at hw2
        have hnul : nullable b = true :=
          mtch_nullable_of_same ic f b st1.1 st1.2 st h2 hw2
        have hea : endsNS a = true := by
          rcases hra with h | h
          · rw [hnul] at h; cases h
          · exact h
        have hw1' : w1 = w := by simpa using hw
        refine ih a p s st1 hea h1 w x ?_ hlast
        rw [← hw1, hw1']
      · have hl : w.getLast? = w2.getLast? := by
          rw [← hw]
          exact List.getLast?_append_of_ne_nil _ hw2nil
        exact ih b st1.1 st1.2 st hrb h2 w2 x hw2.symm (hl ▸ hlast)
    | alt a b =>
      simp only [endsNS, Bool.and_eq_true] at hr
      simp only [mtch, List.mem_append] at hst
      rcases hst with h | h
      · exact ih a p s st hr.1 h w x heq hlast
      · exact ih b p s st hr.2 h w x heq hlast
    | star r =>
      simp only [endsNS] at hr
      simp only [mtch, List.mem_cons, List.mem_flatMap, List.mem_filter] at hst
      rcases hst with rfl | ⟨st1, ⟨h1, _⟩, h2⟩
      · exact (consume_nothing_no_last heq hlast).elim
      · obtain ⟨w1, hw1⟩ := mtch_suffix ic f r p s st1 h1
        obtain ⟨w2, hw2⟩ := mtch_suffix ic f (Regex.star r) st1.1 st1.2 st h2
        have hw : w1 ++ w2 = w := by
          have hx : (w1 ++ w2) ++ st.2 = w ++ st.2 := by
            rw [List.append_assoc, hw2, hw1, ← heq]
          exact List.append_cancel_right hx
        by_cases hw2nil : w2 = []
        · subst hw2nil
          simp only [List.nil_append] at hw2
          have hw1' : w1 = w := by simpa using hw
          refine ih r p s st1 hr h1 w x ?_ hlast
          rw [← hw1, hw1']
        · have hl : w.getLast? = w2.getLast? := by
            rw [← hw]
            exact List.getLast?_append_of_ne_nil _ hw2nil
          exact ih (Regex.star r) st1.1 st1.2 st (by simpa [endsNS] using hr) h2
            w2 x hw2.symm (hl ▸ hlast)

end Re

namespace Re

/-- Whitespace characters are not word characters. -/
theorem space_not_word {y : Char} (h : isSpaceChar y = true) :
    isWordChar y = false := by
  simp only [isSpaceChar, Bool.or_eq_true, decide_eq_true_eq] at h
  rcases h with ((((h | h) | h) | h) | h) | h <;> subst h <;> decide

/-- Transplantation: for a lookahead-free regex, a match over `u ++ d` that
leaves at least all of the all-whitespace tail `d` unconsumed is also a
match over `u` alone, reaching the corresponding state. -/
theorem mtch_transplant (ic : Bool) {d : List Char}
    (hd : ∀ y ∈ d, isSpaceChar y = true) :
    ∀ (f : Nat) (r : Regex) (p : Option Char) (u u' : List Char) (q : Option Char),
      nlaFree r = true →
      (q, u' ++ d) ∈ mtch ic f r p (u ++ d) →
      (q, u') ∈ mtch ic f r p u := by
  intro f
  induction f with
  | zero => intro r p u u' q _ hst; simp [mtch] at hst
  | succ f ih =>
    intro r p u u' q hnf hst
    cases r with
    | nla r => simp [nlaFree] at hnf
    | eps =>
      simp only [mtch, List.mem_singleton, Prod.mk.injEq] at hst ⊢
      exact ⟨hst.1, List.append_cancel_right hst.2⟩
    | lit c =>
      cases u with
      | nil =>
        cases d with
        | nil => simp [mtch] at hst
        | cons y ys =>
          simp only [List.nil_append, mtch] at hst
          split at hst
          · simp only [List.mem_singleton, Prod.mk.injEq] at hst
            have := congrArg List.length hst.2
            simp at this
            omega
          · simp at hst
      | cons z zs =>
        simp only [List.cons_append, mtch] at hst
        split at hst
        · simp only [List.mem_singleton, Prod.mk.injEq] at hst
          obtain ⟨hq, hu⟩ := hst
          have hu' : u' = zs := List.append_cancel_right hu
          subst hq; subst hu'
          simp only [mtch]
          rw [if_pos (by assumption)]
          simp
        · simp at hst
    | cls items =>
      cases u with
      | nil =>
        cases d with
        | nil => simp [mtch] at hst
        | cons y ys =>
          simp only [List.nil_append, mtch] at hst
          split at hst
          · simp only [List.mem_singleton, Prod.mk.injEq] at hst
            have := congrArg List.length hst.2
            simp at this
            omega
          · simp at hst
      | cons z zs =>
        simp only [List.cons_append, mtch] at hst
        split at hst
        · simp only [List.mem_singleton, Prod.mk.injEq] at hst
          obtain ⟨hq, hu⟩ := hst
          have hu' : u' = zs := List.append_cancel_right hu
          subst hq; subst hu'
          simp only [mtch]
          rw [if_pos (by assumption)]
          simp
        · simp at hst
    | dot =>
      cases u with
      | nil =>
        cases d with
        | nil => simp [mtch] at hst
        | cons y ys =>
          simp only [List.nil_append, mtch] at hst
          split at hst
          · simp only [List.mem_singleton, Prod.mk.injEq] at hst
            have := congrArg List.length hst.2
            simp at this
            omega
          · simp at hst
      | cons z zs =>
        simp only [List.cons_append, mtch] at hst
        split at hst
        · simp only [List.mem_singleton, Prod.mk.injEq] at hst
          obtain ⟨hq, hu⟩ := hst
          have hu' : u' = zs := List.append_cancel_right hu
          subst hq; subst hu'
          simp only [mtch]
          rw [if_pos (by assumption)]
          simp
        · simp at hst
    | bol =>
      simp only [mtch] at hst
      split at hst
      · simp only [List.mem_singleton, Prod.mk.injEq] at hst
        obtain ⟨hq, hu⟩ := hst
        have hu' : u' = u := List.append_cancel_right hu
        subst hq; subst hu'
        simp only [mtch]
        rw [if_pos (by assumption)]
        simp
      · simp at hst
    | eol =>
      simp only [mtch] at hst
      split at hst
      case isTrue hcond =>
        simp only [List.mem_singleton, Prod.mk.injEq] at hst
        obtain ⟨hq, hu⟩ := hst
        have hu' : u' = u := List.append_cancel_right hu
        subst hq; subst hu'
        simp only [mtch]
        rw [if_pos ?_]
        · simp
        · simp only [Bool.or_eq_true, List.isEmpty_eq_true, decide_eq_true_eq] at hcond ⊢
          rcases hcond with h | h
          · exact Or.inl (by
              rcases List.append_eq_nil.mp h with ⟨h1, _⟩
              exact h1)
          · cases u' with
            | nil => exact Or.inl rfl
            | cons z zs =>
              cases zs with
              | nil =>
                simp only [List.cons_append, List.nil_append] at h
                simp at h
                exact Or.inr (by simp [h.1])
              | cons z2 zs2 =>
                exfalso
                have := congrArg List.length h
                simp at this
      case isFalse => simp at hst
    | wordB =>
      simp only [mtch] at hst
      split at hst
      case isTrue hcond =>
        simp only [List.mem_singleton, Prod.mk.injEq] at hst
        obtain ⟨hq, hu⟩ := hst
        have hu' : u' = u := List.append_cancel_right hu
        subst hq; subst hu'
        simp only [mtch]
        rw [if_pos ?_]
        · simp
        · cases u' with
          | cons z zs => simpa [boundaryOk] using hcond
          | nil =>
            cases d with
            | nil => simpa using hcond
            | cons y ys =>
              have hy : isWordChar y = false := space_not_word (hd y (by simp))
              simp only [List.nil_append, boundaryOk] at hcond ⊢
              rw [hy] at hcond
              exact hcond
      case isFalse => simp at hst
    | seq a b =>
      simp only [nlaFree, Bool.and_eq_true] at hnf
      simp only [mtch, List.mem_flatMap] at hst ⊢
      obtain ⟨st1, h1, h2⟩ := hst
      obtain ⟨q1, t1⟩ := st1
      by_cases hlen : d.length ≤ t1.length
      · obtain ⟨w1, hw1, hw1u⟩ :=
          suffix_append_split (mtch_suffix ic f a p (u ++ d) (q1, t1) h1) hlen
        subst hw1
        refine ⟨(q1, w1), ih a p u w1 q1 hnf.1 h1, ?_⟩
        exact ih b q1 w1 u' q hnf.2 h2
      · exfalso
        have hsuf := mtch_suffix ic f b q1 t1 (q, u' ++ d) h2
        have := hsuf.length_le
        simp at this
        omega
    | alt a b =>
      simp only [nlaFree, Bool.and_eq_true] at hnf
      simp only [mtch, List.mem_append] at hst ⊢
      rcases hst with h | h
      · exact Or.inl (ih a p u u' q hnf.1 h)
      · exact Or.inr (ih b p u u' q hnf.2 h)
    | star r =>
      simp only [nlaFree] at hnf
      simp only [mtch, List.mem_cons, List.mem_flatMap, List.mem_filter] at hst ⊢
      rcases hst with heq | ⟨st1, ⟨h1, hprog⟩, h2⟩
      · left
        simp only [Prod.mk.injEq] at heq
        exact Prod.ext heq.1 (List.append_cancel_right heq.2)
      · obtain ⟨q1, t1⟩ := st1
        by_cases hlen : d.length ≤ t1.length
        · obtain ⟨w1, hw1, hw1u⟩ :=
            suffix_append_split (mtch_suffix ic f r p (u ++ d) (q1, t1) h1) hlen
          subst hw1
          right
          refine ⟨(q1, w1), ⟨ih r p u w1 q1 hnf h1, ?_⟩,
            ih (Regex.star r) q1 w1 u' q hnf h2⟩
          simp only [decide_eq_true_eq] at hprog ⊢
          have := congrArg List.length (rfl : w1 ++ d = w1 ++ d)
          simp only [List.length_append] at hprog
          omega
        · exfalso
          have hsuf := mtch_suffix ic f (Regex.star r) q1 t1 (q, u' ++ d) h2
          have := hsuf.length_le
          simp at this
          omega

end Re

namespace Re

/-- Decomposition of a position enumerated by `suffixStates`: its remaining
input is a suffix of the haystack, and its context is the character just
before it (or the initial context at the very start). -/
theorem suffixStates_decomp {p : Option Char} {l : List Char} {st : MState}
    (h : st ∈ suffixStates p l) :
    ∃ A, l = A ++ st.2 ∧
      ((A = [] ∧ st.1 = p) ∨ ∃ y, A.getLast? = some y ∧ st.1 = some y) := by
  induction l generalizing p with
  | nil =>
    simp only [suffixStates, List.mem_singleton] at h
    subst h
    exact ⟨[], rfl, Or.inl ⟨rfl, rfl⟩⟩
  | cons x xs ih =>
    simp only [suffixStates, List.mem_cons] at h
    rcases h with rfl | h
    · exact ⟨[], rfl, Or.inl ⟨rfl, rfl⟩⟩
    · obtain ⟨A, hA, hctx⟩ := ih h
      refine ⟨x :: A, by simp [hA], ?_⟩
      rcases hctx with ⟨rfl, hq⟩ | ⟨y, hy, hq⟩
      · exact Or.inr ⟨x, by simp, hq⟩
      · refine Or.inr ⟨y, ?_, hq⟩
        rw [← hy]
        cases A with
        | nil => simp at hy
        | cons a as => simp [List.getLast?_cons_cons]
    
/-- Every suffix of the haystack occurs as a position in `suffixStates`. -/
theorem suffixStates_mem_of_suffix {t l : List Char} (h : t <:+ l)
    (p : Option Char) : ∃ q, (q, t) ∈ suffixStates p l := by
  induction l generalizing p with
  | nil =>
    have ht : t = [] := List.suffix_nil.mp h
    subst ht
    exact ⟨p, by simp [suffixStates]⟩
  | cons x xs ih =>
    rcases List.suffix_cons_iff.mp h with rfl | h
    · exact ⟨p, by simp [suffixStates]⟩
    · obtain ⟨q, hq⟩ := ih h (some x)
      exact ⟨q, by simp [suffixStates, hq]⟩

end Re

namespace Re

theorem stripRight_decomp (m : List Char) :
    m = stripRight m ++ (m.reverse.takeWhile isSpaceChar).reverse := by
  conv_lhs => rw [← List.reverse_reverse m,
    ← List.takeWhile_append_dropWhile isSpaceChar m.reverse]
  rw [List.reverse_append]
  rfl

/-- Any list splits as whitespace padding, its Python `strip`, and more
whitespace padding. -/
theorem pyStrip_decomp (l : List Char) :
    ∃ lpad rpad, l = lpad ++ pyStrip l ++ rpad ∧
      (∀ y ∈ lpad, isSpaceChar y = true) ∧ ∀ y ∈ rpad, isSpaceChar y = true := by
  refine ⟨l.takeWhile isSpaceChar,
    ((stripLeft l).reverse.takeWhile isSpaceChar).reverse, ?_, ?_, ?_⟩
  · conv_lhs => rw [← List.takeWhile_append_dropWhile isSpaceChar l]
    rw [List.append_assoc]
    congr 1
    exact stripRight_decomp (stripLeft l)
  · intro y hy
    exact List.mem_takeWhile_imp hy
  · intro y hy
    rw [List.mem_reverse] at hy
    exact List.mem_takeWhile_imp hy

end Re

namespace Re

theorem suffix_of_append_le {α : Type} {t a b : List α} (h : t <:+ a ++ b)
    (hlen : t.length ≤ b.length) : t <:+ b := by
  obtain ⟨v, hv⟩ := h
  have hvl : v.length + t.length = a.length + b.length := by
    have := congrArg List.length hv
    simpa using this
  obtain ⟨w2, _, hb⟩ := append_eq_split_left hv.symm (by omega)
  exact ⟨w2, hb.symm⟩

/-- Key transfer lemma: for a lookahead-free pattern that must start and end
on non-space literals, a `re.search` hit on a string carries over to the
stripped string.  This covers the self-invocation patterns, whose `re.search`
runs on the raw command while `check_command` matches the stripped one. -/
theorem rsearch_strip (ic : Bool) (r : Regex)
    (hsl : startsNonSpaceLit r = true) (hnf : nlaFree r = true)
    (hens : endsNS r = true) (l : List Char) (hs : rsearch ic r l = true) :
    rsearch ic r (pyStrip l) = true := by
  unfold rsearch at hs
  rw [List.any_eq_true] at hs
  obtain ⟨st, hmem, hmat⟩ := hs
  obtain ⟨ctx0, pos⟩ := st
  unfold hasMatchAt at hmat
  have hnemp : mtch ic (fbound r pos) r ctx0 pos ≠ [] := by
    simpa using hmat
  -- the match position starts with a non-space character
  rcases hsh : pos with _ | ⟨x, xs⟩
  · rw [hsh] at hnemp
    exact absurd (mtch_startsNonSpaceLit_empty ic _ r ctx0 [] hsl (Or.inl rfl)) hnemp
  subst hsh
  by_cases hx : isSpaceChar x = true
  · exact absurd
      (mtch_startsNonSpaceLit_empty ic _ r ctx0 (x :: xs) hsl (Or.inr ⟨x, xs, rfl, hx⟩))
      hnemp
  rw [Bool.not_eq_true] at hx
  -- split the haystack into padding, stripped core, padding
  obtain ⟨lpad, rpad, hls, hlp, hrp⟩ := pyStrip_decomp l
  obtain ⟨A, hA, _⟩ := suffixStates_decomp hmem
  have hsuf : (x :: xs) <:+ lpad ++ pyStrip l ++ rpad := by
    rw [← hls]
    exact ⟨A, hA.symm⟩
  by_cases hlen : rpad.length ≤ (x :: xs).length
  case neg =>
    -- the whole position sits inside the right padding: impossible,
    -- since its head is not whitespace
    have hsub : (x :: xs) <:+ rpad := suffix_of_append_le hsuf (by omega)
    have := hrp x (hsub.sublist.subset (List.mem_cons_self x xs))
    simp [this] at hx
  case pos =>
    obtain ⟨v, hv, hvu⟩ := suffix_append_split hsuf hlen
    cases v with
    | nil =>
      simp only [List.nil_append] at hv
      have := hrp x (by rw [← hv]; exact List.mem_cons_self x xs)
      simp [this] at hx
    | cons v0 vt =>
      have hxv : x = v0 := by
        have h := hv
        simp only [List.cons_append, List.cons.injEq] at h
        exact h.1
      by_cases hvc : (v0 :: vt).length ≤ (pyStrip l).length
      case neg =>
        -- the position would have to start inside the left padding
        obtain ⟨w, hw, hwl⟩ := suffix_append_split hvu (by omega)
        cases w with
        | nil =>
          simp only [List.nil_append] at hw
          exact absurd (le_of_eq (congrArg List.length hw)) hvc
        | cons w0 wt =>
          have hw0 : w0 = v0 := by
            have h := hw
            simp only [List.cons_append, List.cons.injEq] at h
            exact h.1.symm
          have hmemp : w0 ∈ lpad := hwl.sublist.subset (List.mem_cons_self w0 wt)
          have hspw := hlp w0 hmemp
          rw [hw0, ← hxv] at hspw
          simp [hspw] at hx
      case pos =>
        have hvcore : (v0 :: vt) <:+ pyStrip l := suffix_of_append_le hvu hvc
        -- transplant the accepted matcher state
        rw [hv] at hnemp
        obtain ⟨st', hst'⟩ := List.exists_mem_of_ne_nil _ hnemp
        obtain ⟨q', rest'⟩ := st'
        have hrsuf : rest' <:+ v0 :: vt ++ rpad :=
          mtch_suffix ic _ r ctx0 _ (q', rest') hst'
        by_cases hrlen : rpad.length ≤ rest'.length
        case pos =>
          obtain ⟨u', hu', _⟩ := suffix_append_split hrsuf hrlen
          rw [hu'] at hst'
          have htp := mtch_transplant ic hrp _ r ctx0 (v0 :: vt) u' q' hnf hst'
          -- move to the canonical fuel for the shorter string
          have hfb : fbound r (v0 :: vt) ≤ fbound r ((v0 :: vt) ++ rpad) :=
            fbound_mono_len r (by simp)
          rw [mtch_fuel_irrel ic (fbound r ((v0 :: vt) ++ rpad))
            (fbound r (v0 :: vt)) r ctx0 (v0 :: vt) hfb (le_refl _)] at htp
          -- a matching position inside the stripped command
          obtain ⟨q0, hq0⟩ := suffixStates_mem_of_suffix hvcore none
          unfold rsearch
          rw [List.any_eq_true]
          refine ⟨(q0, v0 :: vt), hq0, ?_⟩
          unfold hasMatchAt
          simp only
          rw [mtch_ctx_irrel ic _ r q0 ctx0 _ hsl]
          simp only [Bool.not_eq_true']
          rw [List.isEmpty_eq_false_iff_exists_mem]
          exact ⟨(q', u'), htp⟩
        case neg =>
          -- the match would end inside the all-space right padding:
          -- impossible for a pattern ending on a non-space literal
          exfalso
          obtain ⟨w, hw⟩ := hrsuf
          have hrlt : rest'.length < rpad.length := Nat.lt_of_not_le hrlen
          have hwlen : (v0 :: vt).length ≤ w.length := by
            have h1 := congrArg List.length hw
            simp only [List.length_append, List.length_cons] at h1
            simp only [List.length_cons]
            omega
          obtain ⟨w2, hw2, hw2r⟩ := append_eq_split_left hw.symm hwlen
          have hw2nil : w2 ≠ [] := by
            intro hnil
            subst hnil
            have := congrArg List.length hw2r
            simp at this
            omega
          obtain ⟨y, hy⟩ : ∃ y, w2.getLast? = some y := by
            cases hgl : w2.getLast? with
            | none => exact absurd (List.getLast?_eq_none_iff.mp hgl) hw2nil
            | some y => exact ⟨y, rfl⟩
          have hymem : y ∈ rpad := by
            rw [hw2r]
            exact List.mem_append_left _ (List.mem_of_mem_getLast? hy)
          have hysp := hrp y hymem
          have hwlast : w.getLast? = some y := by
            rw [hw2, List.getLast?_append_of_ne_nil _ hw2nil]
            exact hy
          have := mtch_endsNS ic _ r ctx0 _ (q', rest') hens hst' w y hw.symm hwlast
          rw [hysp] at this
          cases this

end Re

namespace Ganesha

open Re

/-- Helper: a single `ALWAYS_DENIED` pattern of the self-invocation shape
that `re.search`-matches the raw command forces the deny branch of
`check_command`. -/
theorem deny_of_raw_pattern_match (pol : AccessPolicy) (c : String) (r : Regex)
    (hmem : r ∈ ALWAYS_DENIED) (h1 : startsNonSpaceLit r = true)
    (h2 : nlaFree r = true) (h3 : endsNS r = true)
    (hsr : rsearch true r c.data = true) :
    check_command pol c =
      (false, "critical", "Command matches security-critical deny pattern") := by
  apply check_command_denies_always
  rw [List.any_eq_true]
  exact ⟨r, hmem, rsearch_strip true r h1 h2 h3 c.data hsr⟩

/-- C10: the self-invocation guard never disagrees with the access decision:
whenever `is_self_invocation` flags a command, `check_command` denies it with
risk `critical`, because each of the four self-invocation patterns is also an
`ALWAYS_DENIED` pattern checked first (the guard searches the raw command
while `check_command` strips it first; `rsearch_strip` bridges the two). -/
theorem self_invocation_always_denied (pol : AccessPolicy) (c : String)
    (h : is_self_invocation c = true) :
    check_command pol c =
      (false, "critical", "Command matches security-critical deny pattern") := by
  unfold is_self_invocation at h
  rw [List.any_eq_true] at h
  obtain ⟨r, hr, hsr⟩ := h
  simp only [self_invoke_patterns, List.mem_cons, List.not_mem_nil, or_false] at hr
  rcases hr with rfl | rfl | rfl | rfl
  · exact deny_of_raw_pattern_match pol c _ (by decide) (by decide) (by decide)
      (by decide) hsr
  · exact deny_of_raw_pattern_match pol c _ (by decide) (by decide) (by decide)
      (by decide) hsr
  · exact deny_of_raw_pattern_match pol c _ (by decide) (by decide) (by decide)
      (by decide) hsr
  · exact deny_of_raw_pattern_match pol c _ (by decide) (by decide) (by decide)
      (by decide) hsr

/-- Witness for C10 at the concrete command ` ganesha --auto update ` (raw,
with surrounding whitespace, so the strip step is exercised). -/
theorem self_invocation_always_denied_witness :
    is_self_invocation " ganesha --auto update " = true ∧
    check_command polWlLs " ganesha --auto update " =
      (false, "critical", "Command matches security-critical deny pattern") :=
  ⟨by decide, self_invocation_always_denied polWlLs " ganesha --auto update " (by decide)⟩

end Ganesha
